import Mathlib

/-!
Shallow embedding of the curve-interpolator library (TypeScript) in Lean 4.

JS numbers are modelled as real numbers; JS arrays of numbers as lists of
reals.  Code that can throw (explicit throw statements, or property access on
an undefined value obtained from an out-of-bounds array read) is modelled with
Option, none marking the crash.  Plain out-of-bounds numeric reads, which in
JS produce undefined and then NaN without throwing, are modelled with getD
reads defaulting to 0.  The only statements touched by that default are the
getU out-of-range demonstrations, whose conclusion - the result differs from
the result at the clamped input - holds equally for JS's NaN.
-/

noncomputable section

namespace CurveInterp

/-- Vectors (control points) are JS arrays of numbers: lists of reals. -/
abbrev Vec := List ℝ

/-- Embedding of clamp from core/utils.ts. -/
def clamp (value mn mx : ℝ) : ℝ :=
  if value < mn then mn else if value > mx then mx else value

/-- Embedding of EPS = Math.pow(2, -42) from core/math.ts. -/
def EPS : ℝ := 2 ^ (-42 : ℤ)

/-- Embedding of sumOfSquares from core/math.ts. -/
def sumOfSquares (v1 v2 : Vec) : ℝ :=
  (List.range v1.length).foldl
    (fun s i => s + (v1.getD i 0 - v2.getD i 0) * (v1.getD i 0 - v2.getD i 0)) 0

/-- Embedding of magnitude from core/math.ts. -/
def magnitude (v : Vec) : ℝ :=
  Real.sqrt ((List.range v.length).foldl (fun s i => s + v.getD i 0 * v.getD i 0) 0)

/-- Embedding of distance from core/math.ts. -/
def distance (p1 p2 : Vec) : ℝ :=
  let sqrs := sumOfSquares p1 p2
  if sqrs = 0 then 0 else Real.sqrt sqrs

/-- Embedding of cuberoot from core/math.ts. -/
def cuberoot (x : ℝ) : ℝ :=
  let y := |x| ^ ((1 : ℝ) / 3)
  if x < 0 then -y else y

/-- Embedding of getQuadRoots from core/math.ts. -/
def getQuadRoots (a b c : ℝ) : List ℝ :=
  if |a| < EPS then
    if |b| < EPS then [] else [-c / b]
  else
    let D := b * b - 4 * a * c
    if |D| < EPS then [-b / (2 * a)]
    else if D > 0 then [(-b + Real.sqrt D) / (2 * a), (-b - Real.sqrt D) / (2 * a)]
    else []

/-- Embedding of getCubicRoots from core/math.ts. -/
def getCubicRoots (a b c d : ℝ) : List ℝ :=
  if |a| < EPS then getQuadRoots b c d
  else
    let p := (3 * a * c - b * b) / (3 * a * a)
    let q := (2 * b * b * b - 9 * a * b * c + 27 * a * a * d) / (27 * a * a * a)
    let roots : List ℝ :=
      if |p| < EPS then [cuberoot (-q)]
      else if |q| < EPS then
        [0] ++ (if p < 0 then [Real.sqrt (-p), -Real.sqrt (-p)] else [])
      else
        let D := q * q / 4 + p * p * p / 27
        if |D| < EPS then [-1.5 * q / p, 3 * q / p]
        else if D > 0 then
          let u := cuberoot (-q / 2 - Real.sqrt D)
          [u - p / (3 * u)]
        else
          let u := 2 * Real.sqrt (-p / 3)
          let t := Real.arccos (3 * q / p / u) / 3
          let k := 2 * Real.pi / 3
          [u * Real.cos t, u * Real.cos (t - k), u * Real.cos (t - 2 * k)]
    roots.map (fun r => r - b / (3 * a))

/-- Per-axis cubic coefficient tuple (a, b, c, d) from core/interfaces.ts. -/
abbrev NumArray4 := ℝ × ℝ × ℝ × ℝ

/-- Embedding of valueAtT from core/spline-segment.ts. -/
def valueAtT (t : ℝ) (coefficients : NumArray4) : ℝ :=
  coefficients.1 * (t * (t * t)) + coefficients.2.1 * (t * t) +
    coefficients.2.2.1 * t + coefficients.2.2.2

/-- Embedding of derivativeAtT from core/spline-segment.ts. -/
def derivativeAtT (t : ℝ) (coefficients : NumArray4) : ℝ :=
  3 * coefficients.1 * (t * t) + 2 * coefficients.2.1 * t + coefficients.2.2.1

/-- Embedding of secondDerivativeAtT from core/spline-segment.ts. -/
def secondDerivativeAtT (t : ℝ) (coefficients : NumArray4) : ℝ :=
  6 * coefficients.1 * t + 2 * coefficients.2.1

/-- Embedding of evaluateForT from core/spline-segment.ts (the fresh target
array filled per component is the mapped list). -/
def evaluateForT (func : ℝ → NumArray4 → ℝ) (t : ℝ) (coefficients : List NumArray4) : Vec :=
  coefficients.map (func t)

/-- Embedding of findRootsOfT from core/spline-segment.ts. -/
def findRootsOfT (lookup : ℝ) (coefficients : NumArray4) : List ℝ :=
  let x := coefficients.2.2.2 - lookup
  if coefficients.1 = 0 ∧ coefficients.2.1 = 0 ∧ coefficients.2.2.1 = 0 ∧ x = 0 then
    [0]
  else
    ((getCubicRoots coefficients.1 coefficients.2.1 coefficients.2.2.1 x).filter
      (fun t => decide (t > -EPS) && decide (t ≤ 1 + EPS))).map (fun t => clamp t 0 1)

/-- Embedding of calcKnotSequence from core/spline-segment.ts.  Math.pow on the
nonnegative base sumOfSquares is real rpow. -/
def calcKnotSequence (p0 p1 p2 p3 : Vec) (alpha : ℝ) : NumArray4 :=
  if alpha = 0 then (0, 1, 2, 3)
  else
    let deltaT : Vec → Vec → ℝ := fun u v => (sumOfSquares u v) ^ (0.5 * alpha)
    let t1 := deltaT p1 p0
    let t2 := deltaT p2 p1 + t1
    let t3 := deltaT p3 p2 + t2
    (0, t1, t2, t3)

/-- Embedding of calculateCoefficients from core/spline-segment.ts.  Over ℝ
every value passes Number.isFinite, so options.tension and options.alpha are
used as given (the defaults 0.5 and null are for non-finite inputs only). -/
def calculateCoefficients (p0 p1 p2 p3 : Vec) (tension alpha : ℝ) : List NumArray4 :=
  let knotSequence : Option NumArray4 :=
    if alpha > 0 then some (calcKnotSequence p0 p1 p2 p3 alpha) else none
  (List.range p0.length).map (fun k =>
    let v0 := p0.getD k 0
    let v1 := p1.getD k 0
    let v2 := p2.getD k 0
    let v3 := p3.getD k 0
    let uv : ℝ × ℝ :=
      match knotSequence with
      | none => ((1 - tension) * (v2 - v0) * 0.5, (1 - tension) * (v3 - v1) * 0.5)
      | some (t0, t1, t2, t3) =>
        if t1 - t2 ≠ 0 then
          ((if t0 - t1 ≠ 0 ∧ t0 - t2 ≠ 0 then
              (1 - tension) * (t2 - t1) *
                ((v0 - v1) / (t0 - t1) - (v0 - v2) / (t0 - t2) + (v1 - v2) / (t1 - t2))
            else 0),
           (if t1 - t3 ≠ 0 ∧ t2 - t3 ≠ 0 then
              (1 - tension) * (t2 - t1) *
                ((v1 - v2) / (t1 - t2) - (v1 - v3) / (t1 - t3) + (v2 - v3) / (t2 - t3))
            else 0))
        else (0, 0)
    (2 * v1 - 2 * v2 + uv.1 + uv.2, -3 * v1 + 3 * v2 - 2 * uv.1 - uv.2, uv.1, v1))

/-- Division that fails instead of producing a junk value on a zero
denominator; used to check that every division the code executes is guarded. -/
def safeDiv (x y : ℝ) : Option ℝ := if y = 0 then none else some (x / y)

/-- Variant of calculateCoefficients in which every division of the source is
performed by safeDiv, so the result is none exactly when the code would divide
by a zero knot difference (producing NaN/Infinity in JS). -/
def calculateCoefficientsChecked (p0 p1 p2 p3 : Vec) (tension alpha : ℝ) :
    Option (List NumArray4) :=
  let knotSequence : Option NumArray4 :=
    if alpha > 0 then some (calcKnotSequence p0 p1 p2 p3 alpha) else none
  (List.range p0.length).mapM (fun k =>
    let v0 := p0.getD k 0
    let v1 := p1.getD k 0
    let v2 := p2.getD k 0
    let v3 := p3.getD k 0
    let uv? : Option (ℝ × ℝ) :=
      match knotSequence with
      | none => some ((1 - tension) * (v2 - v0) * 0.5, (1 - tension) * (v3 - v1) * 0.5)
      | some (t0, t1, t2, t3) =>
        if t1 - t2 ≠ 0 then
          (if t0 - t1 ≠ 0 ∧ t0 - t2 ≠ 0 then
            (safeDiv (v0 - v1) (t0 - t1)).bind fun q1 =>
            (safeDiv (v0 - v2) (t0 - t2)).bind fun q2 =>
            (safeDiv (v1 - v2) (t1 - t2)).map fun q3 =>
              (1 - tension) * (t2 - t1) * (q1 - q2 + q3)
          else some 0).bind fun u =>
          (if t1 - t3 ≠ 0 ∧ t2 - t3 ≠ 0 then
            (safeDiv (v1 - v2) (t1 - t2)).bind fun q1 =>
            (safeDiv (v1 - v3) (t1 - t3)).bind fun q2 =>
            (safeDiv (v2 - v3) (t2 - t3)).map fun q3 =>
              (1 - tension) * (t2 - t1) * (q1 - q2 + q3)
          else some 0).map fun v => (u, v)
        else some (0, 0)
    uv?.map fun uv =>
      ((2 * v1 - 2 * v2 + uv.1 + uv.2, -3 * v1 + 3 * v2 - 2 * uv.1 - uv.2, uv.1, v1) :
        NumArray4))

/-- Embedding of extrapolateControlPoint from core/spline-curve.ts. -/
def extrapolateControlPoint (u v : Vec) : Vec :=
  (List.range u.length).map (fun i => 2 * u.getD i 0 - v.getD i 0)

/-- JS array read points[i]: undefined (none) when i is negative or beyond the
end, since downstream component access on undefined throws. -/
def jsIndex (l : List Vec) (i : ℤ) : Option Vec :=
  if i < 0 then none else l.get? i.toNat

/-- Embedding of getControlPoints from core/spline-curve.ts.  none models the
explicit throw at the last index of an open curve, and the crash that follows
an out-of-range point access. -/
def getControlPoints (idx : ℤ) (points : List Vec) (closed : Bool) :
    Option (Vec × Vec × Vec × Vec) :=
  let maxIndex : ℤ := (points.length : ℤ) - 1
  if closed then
    (jsIndex points (if idx - 1 < 0 then maxIndex else idx - 1)).bind fun p0 =>
    (jsIndex points (Int.tmod idx (points.length : ℤ))).bind fun p1 =>
    (jsIndex points (Int.tmod (idx + 1) (points.length : ℤ))).bind fun p2 =>
    (jsIndex points (Int.tmod (idx + 2) (points.length : ℤ))).map fun p3 =>
    (p0, p1, p2, p3)
  else
    if idx = maxIndex then none
    else
      (jsIndex points idx).bind fun p1 =>
      (jsIndex points (idx + 1)).bind fun p2 =>
      (if idx > 0 then jsIndex points (idx - 1)
       else some (extrapolateControlPoint p1 p2)).bind fun p0 =>
      (if idx < maxIndex - 1 then jsIndex points (idx + 2)
       else some (extrapolateControlPoint p2 p1)).map fun p3 =>
      (p0, p1, p2, p3)

/-- Embedding of getSegmentIndexAndT from core/spline-curve.ts. -/
def getSegmentIndexAndT (ct : ℝ) (points : List Vec) (closed : Bool) : ℤ × ℝ :=
  let nPoints : ℕ := if closed then points.length else points.length - 1
  if ct = 1 then ((nPoints : ℤ) - 1, 1)
  else
    let p := (nPoints : ℝ) * ct
    (⌊p⌋, p - (⌊p⌋ : ℝ))

/-- Data held by a curve mapper once its points are set: the state read by the
pure curve operations of AbstractCurveMapper. -/
structure CurveState where
  points : List Vec
  tension : ℝ
  alpha : ℝ
  closed : Bool

/-- Embedding of AbstractCurveMapper.getCoefficients: on a cache miss the
coefficients are computed from the control points of the segment; the memo
returns the same value, so the functional reading is the computation itself. -/
def getCoefficients (s : CurveState) (idx : ℤ) : Option (List NumArray4) :=
  (getControlPoints idx s.points s.closed).map fun q =>
    calculateCoefficients q.1 q.2.1 q.2.2.1 q.2.2.2 s.tension s.alpha

/-- Embedding of AbstractCurveMapper.getPointAtT (copyValues copies the
components of the hit control point; the value returned is that point). -/
def getPointAtT (s : CurveState) (t : ℝ) : Option Vec :=
  let tc := clamp t 0 1
  if tc = 0 then s.points.get? 0
  else if tc = 1 then
    if s.closed then s.points.get? 0 else s.points.get? (s.points.length - 1)
  else
    let it := getSegmentIndexAndT tc s.points s.closed
    (getCoefficients s it.1).map fun coefficients =>
      evaluateForT valueAtT it.2 coefficients

/-- Embedding of AbstractCurveMapper.getTangentAtT. -/
def getTangentAtT (s : CurveState) (t : ℝ) : Option Vec :=
  let tc := clamp t 0 1
  let it := getSegmentIndexAndT tc s.points s.closed
  (getCoefficients s it.1).map fun coefficients =>
    evaluateForT derivativeAtT it.2 coefficients

/-- Modelled from the claim wording of C9, for refinement comparison only: a
getPointAtT that performs no input clamping, with the exact t = 0 / t = 1
endpoint shortcuts as the only input adjustment. -/
def getPointAtTNoClamp (s : CurveState) (t : ℝ) : Option Vec :=
  if t = 0 then s.points.get? 0
  else if t = 1 then
    if s.closed then s.points.get? 0 else s.points.get? (s.points.length - 1)
  else
    let it := getSegmentIndexAndT t s.points s.closed
    (getCoefficients s it.1).map fun coefficients =>
      evaluateForT valueAtT it.2 coefficients

/-- Loop of binarySearch from core/utils.ts, with explicit fuel (the JS while
loop always terminates in at most length iterations).  When the source sets
right = mid - 1 with mid = 0, the JS loop exits with right = -1 and returns
Math.max(0, right) = 0; that exit is the returned 0 in the mid = 0 case here,
which keeps both cursors natural numbers. -/
def bsLoop (accumulatedValues : List ℝ) (targetValue : ℝ) : ℕ → ℕ → ℕ → ℕ
  | 0, _, right => right
  | fuel + 1, left, right =>
    if left ≤ right then
      let mid := (left + right) / 2
      let lMid := accumulatedValues.getD mid 0
      if lMid < targetValue then bsLoop accumulatedValues targetValue fuel (mid + 1) right
      else if lMid > targetValue then
        if mid = 0 then 0 else bsLoop accumulatedValues targetValue fuel left (mid - 1)
      else mid
    else right

/-- Embedding of binarySearch from core/utils.ts. -/
def binarySearch (targetValue : ℝ) (accumulatedValues : List ℝ) : ℕ :=
  let mn := accumulatedValues.getD 0 0
  let mx := accumulatedValues.getD (accumulatedValues.length - 1) 0
  if targetValue ≥ mx then accumulatedValues.length - 1
  else if targetValue ≤ mn then 0
  else bsLoop accumulatedValues targetValue accumulatedValues.length 0
    (accumulatedValues.length - 1)

/-- Loop of LinearCurveMapper.computeArcLengths: the entries pushed for
p = firstP .. subDivisions, carrying the previous sample point and the running
sum.  The ambient getPointAtT calls are the ones the loop body makes. -/
def arcAccumL (s : CurveState) (subDivisions : ℕ) :
    ℕ → ℕ → Vec → ℝ → Option (List ℝ)
  | 0, _, _, _ => some []
  | steps + 1, p, last, sum =>
    (getPointAtT s ((p : ℝ) / (subDivisions : ℝ))).bind fun current =>
      (arcAccumL s subDivisions steps (p + 1) current
        (sum + distance current last)).map fun rest =>
        (sum + distance current last) :: rest

/-- Embedding of LinearCurveMapper.computeArcLengths. -/
def computeArcLengthsL (s : CurveState) (subDivisions : ℕ) : Option (List ℝ) :=
  (getPointAtT s 0).bind fun first =>
    (arcAccumL s subDivisions subDivisions 1 first 0).map fun rest => 0 :: rest

/-- Embedding of LinearCurveMapper.lengthAt. -/
def lengthAtL (s : CurveState) (subDivisions : ℕ) (u : ℝ) : Option ℝ :=
  (computeArcLengthsL s subDivisions).map fun arcLengths =>
    u * arcLengths.getD (arcLengths.length - 1) 0

/-- Embedding of LinearCurveMapper.getT.  Every arithmetic step after the arc
length table exists is a plain numeric computation (JS cannot throw there). -/
def getT_L (s : CurveState) (subDivisions : ℕ) (u : ℝ) : Option ℝ :=
  (computeArcLengthsL s subDivisions).map fun arcLengths =>
    let il := arcLengths.length
    let targetArcLength := u * arcLengths.getD (il - 1) 0
    let i := binarySearch targetArcLength arcLengths
    if arcLengths.getD i 0 = targetArcLength then (i : ℝ) / ((il - 1 : ℕ) : ℝ)
    else
      let lengthBefore := arcLengths.getD i 0
      let lengthAfter := arcLengths.getD (i + 1) 0
      let segmentLength := lengthAfter - lengthBefore
      let segmentFraction := (targetArcLength - lengthBefore) / segmentLength
      ((i : ℝ) + segmentFraction) / ((il - 1 : ℕ) : ℝ)

/-- Embedding of LinearCurveMapper.getU.  Math.floor of the nonnegative
denormalized index is the floor; for the t range addressed by the claims the
index is nonnegative. -/
def getU_L (s : CurveState) (subDivisions : ℕ) (t : ℝ) : Option ℝ :=
  if t = 0 then some 0
  else if t = 1 then some 1
  else
    (computeArcLengthsL s subDivisions).bind fun arcLengths =>
      let al := arcLengths.length - 1
      let totalLength := arcLengths.getD al 0
      let tIdx := t * (al : ℝ)
      let subIdx := (⌊tIdx⌋).toNat
      let l1 := arcLengths.getD subIdx 0
      if tIdx = (subIdx : ℝ) then some (l1 / totalLength)
      else
        let t0 := (subIdx : ℝ) / (al : ℝ)
        (getPointAtT s t0).bind fun p0 =>
          (getPointAtT s t).map fun p1 =>
            (l1 + distance p0 p1) / totalLength

/-- Modelled from the spec: getGaussianQuadraturePointsAndWeights
(curve-mappers/gauss.ts is not under src/) precomputes the Gauss-Legendre
(abscissa, weight) pairs stored by NumericalCurveMapper; for the Gauss-Legendre
rule the abscissae lie in [-1, 1] and the weights are positive. -/
def IsGaussTable (gauss : List (ℝ × ℝ)) : Prop :=
  ∀ TC ∈ gauss, -1 ≤ TC.1 ∧ TC.1 ≤ 1 ∧ 0 < TC.2

/-- Quadrature sum of NumericalCurveMapper.computeArcLength once the segment
coefficients are at hand. -/
def quadLength (gauss : List (ℝ × ℝ)) (coefficients : List NumArray4) (t0 t1 : ℝ) : ℝ :=
  let z := (t1 - t0) * 0.5
  z * (gauss.foldl
    (fun sum TC =>
      sum + TC.2 * magnitude (evaluateForT derivativeAtT (z * TC.1 + z + t0) coefficients))
    0)

/-- Embedding of NumericalCurveMapper.computeArcLength. -/
def computeArcLengthN (s : CurveState) (gauss : List (ℝ × ℝ)) (index : ℤ)
    (t0 t1 : ℝ) : Option ℝ :=
  (getCoefficients s index).map fun coefficients => quadLength gauss coefficients t0 t1

/-- Loop of NumericalCurveMapper.computeArcLengths: entries pushed for
segments i, i+1, ... with the running total tl. -/
def arcAccumN (s : CurveState) (gauss : List (ℝ × ℝ)) :
    ℕ → ℕ → ℝ → Option (List ℝ)
  | 0, _, _ => some []
  | steps + 1, i, tl =>
    (computeArcLengthN s gauss (i : ℤ) 0 1).bind fun length =>
      (arcAccumN s gauss steps (i + 1) (tl + length)).map fun rest =>
        (tl + length) :: rest

/-- Embedding of NumericalCurveMapper.computeArcLengths. -/
def computeArcLengthsN (s : CurveState) (gauss : List (ℝ × ℝ)) : Option (List ℝ) :=
  let nPoints := if s.closed then s.points.length else s.points.length - 1
  (arcAccumN s gauss nPoints 0 0).map fun rest => 0 :: rest

/-- Embedding of NumericalCurveMapper.lengthAt. -/
def lengthAtN (s : CurveState) (gauss : List (ℝ × ℝ)) (u : ℝ) : Option ℝ :=
  (computeArcLengthsN s gauss).map fun arcLengths =>
    u * arcLengths.getD (arcLengths.length - 1) 0

/-- Embedding of NumericalCurveMapper.getSamples: cumulative in-segment
lengths, inverse slopes, and the precalculated monotone cubic interpolant
coefficient rows (the li_prev/tdi_prev trackers of the source loop are the
indexed reads below). -/
def getSamplesN (s : CurveState) (gauss : List (ℝ × ℝ)) (nSamples : ℕ) (idx : ℤ) :
    Option (List ℝ × List ℝ × List ℝ × List ℝ) :=
  (getCoefficients s idx).map fun coefficients =>
    let lengths := (List.range nSamples).map fun i =>
      quadLength gauss coefficients 0 ((i : ℝ) / (((nSamples - 1 : ℕ) : ℝ)))
    let slopes := (List.range nSamples).map fun i =>
      let dtln := magnitude (evaluateForT derivativeAtT
        ((i : ℝ) / (((nSamples - 1 : ℕ) : ℝ))) coefficients)
      if dtln = 0 then 0 else 1 / dtln
    let nCoeff := nSamples - 1
    let step := 1 / ((nCoeff : ℕ) : ℝ)
    let dis := (List.range nCoeff).map fun i =>
      let lDiff := lengths.getD (i + 1) 0 - lengths.getD i 0
      let si := step / lDiff
      (slopes.getD i 0 + slopes.getD (i + 1) 0 - 2 * si) / (lDiff * lDiff)
    let cis := (List.range nCoeff).map fun i =>
      let lDiff := lengths.getD (i + 1) 0 - lengths.getD i 0
      let si := step / lDiff
      (3 * si - 2 * slopes.getD i 0 - slopes.getD (i + 1) 0) / lDiff
    (lengths, slopes, cis, dis)

/-- Embedding of NumericalCurveMapper.inverse (Math.max(0, binarySearch ...)
is the identity here since the embedded binarySearch returns a natural). -/
def inverseN (s : CurveState) (gauss : List (ℝ × ℝ)) (nSamples : ℕ) (idx : ℤ)
    (len : ℝ) : Option ℝ :=
  (getSamplesN s gauss nSamples idx).map fun q =>
    let lengths := q.1
    let slopes := q.2.1
    let cis := q.2.2.1
    let dis := q.2.2.2
    let nCoeff := nSamples - 1
    let step := 1 / ((nCoeff : ℕ) : ℝ)
    let length := lengths.getD (lengths.length - 1) 0
    if len ≥ length then 1
    else if len ≤ 0 then 0
    else
      let i := binarySearch len lengths
      let ti := (i : ℝ) * step
      if lengths.getD i 0 = len then ti
      else
        let ld := len - lengths.getD i 0
        ((dis.getD i 0 * ld + cis.getD i 0) * ld + slopes.getD i 0) * ld + ti

/-- Embedding of NumericalCurveMapper.getT. -/
def getT_N (s : CurveState) (gauss : List (ℝ × ℝ)) (nSamples : ℕ) (u : ℝ) :
    Option ℝ :=
  (computeArcLengthsN s gauss).bind fun arcLengths =>
    let il := arcLengths.length
    let targetArcLength := u * arcLengths.getD (il - 1) 0
    let i := binarySearch targetArcLength arcLengths
    let ti := (i : ℝ) / ((il - 1 : ℕ) : ℝ)
    if arcLengths.getD i 0 = targetArcLength then some ti
    else
      (inverseN s gauss nSamples (i : ℤ) (targetArcLength - arcLengths.getD i 0)).map
        fun fraction => ((i : ℝ) + fraction) / ((il - 1 : ℕ) : ℝ)

/-- Embedding of NumericalCurveMapper.getU. -/
def getU_N (s : CurveState) (gauss : List (ℝ × ℝ)) (t : ℝ) : Option ℝ :=
  if t = 0 then some 0
  else if t = 1 then some 1
  else
    (computeArcLengthsN s gauss).bind fun arcLengths =>
      let al := arcLengths.length - 1
      let totalLength := arcLengths.getD al 0
      let tIdx := t * (al : ℝ)
      let subIdx := (⌊tIdx⌋).toNat
      let l1 := arcLengths.getD subIdx 0
      if tIdx = (subIdx : ℝ) then some (l1 / totalLength)
      else
        (computeArcLengthN s gauss (subIdx : ℤ) 0 (tIdx - (subIdx : ℝ))).map
          fun fraction => (l1 + fraction) / totalLength

/-- Cache slots of a curve mapper (the _cache object): arc length table,
memoized per-segment coefficients, and the numerical mapper's inverse-fit
samples; none is an empty slot. -/
structure MapperCache where
  arcLengths : Option (List ℝ)
  coefficients : Option (List (ℤ × List NumArray4))
  samples : Option (List (ℤ × (List ℝ × List ℝ × List ℝ × List ℝ)))

/-- The cache object the constructor and _invalidateCache install: all slots
empty (the fresh object has no samples key, which reads as undefined). -/
def emptyCache : MapperCache := ⟨none, none, none⟩

/-- Mutable state of an AbstractCurveMapper instance.  points is none while
no point set has been assigned (JS undefined); fired counts the synchronous
onInvalidateCache invocations. -/
structure MapperState where
  points : Option (List Vec)
  tension : ℝ
  alpha : ℝ
  closed : Bool
  cache : MapperCache
  fired : ℕ

/-- Embedding of AbstractCurveMapper._invalidateCache: early return when no
points are set, otherwise replace the cache wholesale and invoke the
callback. -/
def invalidateCacheBase (s : MapperState) : MapperState :=
  match s.points with
  | none => s
  | some _ => { s with cache := emptyCache, fired := s.fired + 1 }

/-- Embedding of NumericalCurveMapper._invalidateCache: the base invalidation
followed by unconditionally clearing the arcLengths and samples slots. -/
def invalidateCacheNumerical (s : MapperState) : MapperState :=
  let q := invalidateCacheBase s
  { q with cache := { q.cache with arcLengths := none, samples := none } }

/-- Embedding of the points setter of AbstractCurveMapper: throw (none) when
the argument is null/undefined or has fewer than 2 entries, else assign and
invalidate.  inval is the dynamically dispatched _invalidateCache. -/
def setPoints (inval : MapperState → MapperState) (s : MapperState)
    (points : Option (List Vec)) : Option MapperState :=
  match points with
  | none => none
  | some l => if l.length < 2 then none else some (inval { s with points := some l })

/-- Embedding of the tension setter: on a change, invalidate first and then
assign (over ℝ every value passes Number.isFinite). -/
def setTension (inval : MapperState → MapperState) (s : MapperState)
    (tension : ℝ) : MapperState :=
  if tension ≠ s.tension then { inval s with tension := tension } else s

/-- Embedding of the alpha setter. -/
def setAlpha (inval : MapperState → MapperState) (s : MapperState)
    (alpha : ℝ) : MapperState :=
  if alpha ≠ s.alpha then { inval s with alpha := alpha } else s

/-- Embedding of the closed setter (the argument is already coerced to a
boolean by the source's double negation). -/
def setClosed (inval : MapperState → MapperState) (s : MapperState)
    (closed : Bool) : MapperState :=
  if s.closed ≠ closed then { inval s with closed := closed } else s

/-- Two-point open demonstration curve used by concrete counterexamples. -/
def demoState : CurveState := ⟨[[0, 0], [1, 0]], 0.5, 0, false⟩

/-- Fresh mapper before any points have been assigned: the field initializers
of AbstractCurveMapper (tension 0.5, alpha 0, closed false, empty cache). -/
def freshMapper : MapperState := ⟨none, 0.5, 0, false, emptyCache, 0⟩

/-! Helper lemmas. -/

theorem EPS_eq : EPS = ((2 ^ 42 : ℝ))⁻¹ := by
  unfold EPS
  rw [zpow_neg]
  norm_num

theorem EPS_pos : 0 < EPS := by
  rw [EPS_eq]
  positivity

theorem get?_eq_some_getD {α : Type} (l : List α) (n : ℕ) (d : α)
    (h : n < l.length) : l.get? n = some (l.getD n d) := by
  rw [List.getD_eq_getElem l d h, List.get?_eq_get h]
  simp

theorem jsIndex_eq (pts : List Vec) (n : ℕ) (h : n < pts.length) :
    jsIndex pts (n : ℤ) = some (pts.getD n []) := by
  unfold jsIndex
  rw [if_neg (Int.not_lt.mpr (Int.natCast_nonneg n)), Int.toNat_natCast]
  exact get?_eq_some_getD pts n [] h

/-- C7: for |a| < ε (ε = 2^-42), getCubicRoots(a,b,c,d) is exactly
getQuadRoots(b,c,d); and getQuadRoots(a,b,c) is the empty list when also
|b| < ε and the single linear root [-c/b] otherwise, so the near-zero leading
coefficient is never divided by. -/
theorem solver_linear_fallback (a b c d : ℝ) (h : |a| < EPS) :
    getCubicRoots a b c d = getQuadRoots b c d ∧
    getQuadRoots a b c = if |b| < EPS then [] else [-c / b] := by
  constructor
  · unfold getCubicRoots
    rw [if_pos h]
  · unfold getQuadRoots
    rw [if_pos h]

theorem solver_linear_fallback_witness :
    |(0 : ℝ)| < EPS ∧
      (getCubicRoots 0 1 2 3 = getQuadRoots 1 2 3 ∧
        getQuadRoots 0 1 2 = if |(1 : ℝ)| < EPS then [] else [-2 / 1]) := by
  have h : |(0 : ℝ)| < EPS := by
    rw [abs_zero]
    exact EPS_pos
  exact ⟨h, solver_linear_fallback 0 1 2 3 h⟩

/-- C4: with alpha = 0 (and any tension, every real being finite),
calculateCoefficients returns for each axis k exactly the tuple (a,b,c,d)
with u = (1-tension)(p2[k]-p0[k])/2, v = (1-tension)(p3[k]-p1[k])/2,
a = 2 p1[k] - 2 p2[k] + u + v, b = -3 p1[k] + 3 p2[k] - 2u - v, c = u,
d = p1[k]. -/
theorem calculateCoefficients_uniform (p0 p1 p2 p3 : Vec) (tension : ℝ) :
    calculateCoefficients p0 p1 p2 p3 tension 0 =
      (List.range p0.length).map (fun k =>
        (((2 * p1.getD k 0 - 2 * p2.getD k 0 +
            (1 - tension) * (p2.getD k 0 - p0.getD k 0) / 2 +
            (1 - tension) * (p3.getD k 0 - p1.getD k 0) / 2,
           -3 * p1.getD k 0 + 3 * p2.getD k 0 -
            2 * ((1 - tension) * (p2.getD k 0 - p0.getD k 0) / 2) -
            (1 - tension) * (p3.getD k 0 - p1.getD k 0) / 2,
           (1 - tension) * (p2.getD k 0 - p0.getD k 0) / 2,
           p1.getD k 0)) : NumArray4)) := by
  simp only [calculateCoefficients, gt_iff_lt, lt_self_iff_false, if_false]
  refine List.map_congr_left fun k _ => ?_
  simp only [Prod.mk.injEq]
  refine ⟨by ring, by ring, by ring, trivial⟩

/-- C10: on an open curve with n >= 2 control points, getControlPoints throws
at segment index n-1, and for 0 <= idx <= n-2 it returns exactly 4 control
points, synthesizing the phantom endpoints 2 p1 - p2 (first segment) and
2 p2 - p1 (last segment) instead of reading outside the point array. -/
theorem getControlPoints_open (pts : List Vec) (idx : ℕ) (h2 : 2 ≤ pts.length)
    (hidx : idx ≤ pts.length - 2) :
    getControlPoints ((pts.length : ℤ) - 1) pts false = none ∧
    getControlPoints (idx : ℤ) pts false = some
      ((if idx = 0 then
          extrapolateControlPoint (pts.getD idx []) (pts.getD (idx + 1) [])
        else pts.getD (idx - 1) []),
       pts.getD idx [], pts.getD (idx + 1) [],
       (if idx = pts.length - 2 then
          extrapolateControlPoint (pts.getD (idx + 1) []) (pts.getD idx [])
        else pts.getD (idx + 2) [])) ∧
    (∀ u v : Vec, extrapolateControlPoint u v =
      (List.range u.length).map (fun i => 2 * u.getD i 0 - v.getD i 0)) := by
  have hidx' : idx < pts.length - 1 := by omega
  refine ⟨?_, ?_, fun u v => rfl⟩
  · unfold getControlPoints
    simp only [Bool.false_eq_true, if_false]
    simp
  · unfold getControlPoints
    simp only [Bool.false_eq_true, if_false]
    rw [if_neg (by omega : ¬ ((idx : ℤ) = (pts.length : ℤ) - 1))]
    rw [jsIndex_eq pts idx (by omega)]
    have h2' : ((idx + 1 : ℕ) : ℤ) = (idx : ℤ) + 1 := by push_cast; ring
    rw [← h2', jsIndex_eq pts (idx + 1) (by omega)]
    simp only [Option.some_bind]
    by_cases h0 : idx = 0
    · subst h0
      rw [if_neg (by omega : ¬ ((0 : ℕ) : ℤ) > 0)]
      simp only [Option.some_bind]
      by_cases hl : 0 = pts.length - 2
      · rw [if_neg (by omega : ¬ ((0 : ℕ) : ℤ) < (pts.length : ℤ) - 1 - 1)]
        simp only [Option.map_some', Option.some_bind]
        split_ifs <;> first | rfl | (exfalso; omega)
      · rw [if_pos (by omega : ((0 : ℕ) : ℤ) < (pts.length : ℤ) - 1 - 1)]
        have h3' : ((0 : ℕ) : ℤ) + 2 = ((0 + 2 : ℕ) : ℤ) := by omega
        rw [h3', jsIndex_eq pts (0 + 2) (by omega)]
        simp only [Option.map_some', Option.some_bind]
        split_ifs <;> first | rfl | (exfalso; omega)
    · rw [if_pos (by omega : (idx : ℤ) > 0)]
      have h1' : (idx : ℤ) - 1 = ((idx - 1 : ℕ) : ℤ) := by omega
      rw [h1', jsIndex_eq pts (idx - 1) (by omega)]
      simp only [Option.some_bind, if_neg h0]
      by_cases hl : idx = pts.length - 2
      · rw [if_neg (by omega : ¬ (idx : ℤ) < (pts.length : ℤ) - 1 - 1)]
        simp only [Option.map_some', Option.some_bind]
        split_ifs <;> first | rfl | (exfalso; omega)
      · rw [if_pos (by omega : (idx : ℤ) < (pts.length : ℤ) - 1 - 1)]
        have h3' : (idx : ℤ) + 2 = ((idx + 2 : ℕ) : ℤ) := by omega
        rw [h3', jsIndex_eq pts (idx + 2) (by omega)]
        simp only [Option.map_some', Option.some_bind]
        split_ifs <;> first | rfl | (exfalso; omega)

theorem clamp_zero : clamp 0 0 1 = 0 := by
  unfold clamp
  norm_num

theorem clamp_one : clamp 1 0 1 = 1 := by
  unfold clamp
  norm_num

/-- C2: for every curve with at least 2 control points and any tension and
alpha, getPointAtT(0) is exactly the first control point and getPointAtT(1)
exactly the last (open) or first (closed) control point, via the t=0/1
short-circuit that bypasses the cubic evaluation and phantom-point math. -/
theorem getPointAtT_endpoints (s : CurveState) (h : 2 ≤ s.points.length) :
    getPointAtT s 0 = some (s.points.getD 0 []) ∧
    getPointAtT s 1 = some (if s.closed then s.points.getD 0 []
      else s.points.getD (s.points.length - 1) []) := by
  constructor
  · simp only [getPointAtT, clamp_zero, if_pos rfl]
    exact get?_eq_some_getD s.points 0 [] (by omega)
  · simp only [getPointAtT, clamp_one]
    rw [if_neg (by norm_num : (1 : ℝ) ≠ 0)]
    rw [if_pos trivial]
    cases hcl : s.closed
    · simp only [Bool.false_eq_true, if_false]
      exact get?_eq_some_getD s.points (s.points.length - 1) [] (by omega)
    · simp only [if_true]
      exact get?_eq_some_getD s.points 0 [] (by omega)

theorem getPointAtT_endpoints_witness :
    2 ≤ (demoState.points).length ∧
      getPointAtT demoState 0 = some (demoState.points.getD 0 []) := by
  refine ⟨by norm_num [demoState], ?_⟩
  exact (getPointAtT_endpoints demoState (by norm_num [demoState])).1

/-- C6 (amended): findRootsOfT returns the sentinel root list [0] when all of
a, b, c and d - target are 0; otherwise it returns exactly the values produced
by the closed-form solver getCubicRoots on (a, b, c, d - target) - which may
substitute roots of a lower-degree polynomial inside its epsilon guards - that
lie in (-eps, 1 + eps], each clamped into [0, 1]; it never fails. -/
theorem findRootsOfT_characterization (lookup : ℝ) (co : NumArray4) :
    ((co.1 = 0 ∧ co.2.1 = 0 ∧ co.2.2.1 = 0 ∧ co.2.2.2 - lookup = 0) →
      findRootsOfT lookup co = [0]) ∧
    (¬ (co.1 = 0 ∧ co.2.1 = 0 ∧ co.2.2.1 = 0 ∧ co.2.2.2 - lookup = 0) →
      ∀ x : ℝ, x ∈ findRootsOfT lookup co ↔
        ∃ r ∈ getCubicRoots co.1 co.2.1 co.2.2.1 (co.2.2.2 - lookup),
          (-EPS < r ∧ r ≤ 1 + EPS) ∧ x = clamp r 0 1) := by
  constructor
  · intro h
    unfold findRootsOfT
    rw [if_pos h]
  · intro h x
    unfold findRootsOfT
    rw [if_neg h]
    simp only [List.mem_map, List.mem_filter, Bool.and_eq_true, decide_eq_true_eq]
    constructor
    · rintro ⟨r, ⟨hr, hc1, hc2⟩, hx⟩
      exact ⟨r, hr, ⟨hc1, hc2⟩, hx.symm⟩
    · rintro ⟨r, hr, ⟨hc1, hc2⟩, hx⟩
      exact ⟨r, ⟨hr, hc1, hc2⟩, hx.symm⟩

theorem findRootsOfT_characterization_witness :
    (((0 : ℝ) = 0 ∧ (0 : ℝ) = 0 ∧ (0 : ℝ) = 0 ∧ (0 : ℝ) - 0 = 0) ∧
      findRootsOfT 0 ((0 : ℝ), (0 : ℝ), (0 : ℝ), (0 : ℝ)) = [0]) ∧
    (¬ ((1 : ℝ) = 0 ∧ (1 : ℝ) = 0 ∧ (1 : ℝ) = 0 ∧ (1 : ℝ) - 0 = 0) ∧
      ((1 : ℝ) ∈ findRootsOfT 0 ((1 : ℝ), (1 : ℝ), (1 : ℝ), (1 : ℝ)) ↔
        ∃ r ∈ getCubicRoots 1 1 1 ((1 : ℝ) - 0),
          (-EPS < r ∧ r ≤ 1 + EPS) ∧ (1 : ℝ) = clamp r 0 1)) := by
  refine ⟨⟨by norm_num, ?_⟩, ⟨by norm_num, ?_⟩⟩
  · exact (findRootsOfT_characterization 0 (0, 0, 0, 0)).1 (by norm_num)
  · exact (findRootsOfT_characterization 0 (1, 1, 1, 1)).2 (by norm_num) 1

theorem EPS_lt_half : EPS < 1 / 2 := by
  rw [EPS_eq]
  norm_num

/-- C6 counterexample: with coefficients (eps/2, 1, 0, -1/4) and target 0 the
cubic solver's quadratic fallback fires (0 < |a| < eps) and findRootsOfT
returns [1/2], although 1/2 is not a root of a t^3 + b t^2 + c t + (d-target)
(its value there is eps/16), and no root outside [0,1] can clamp to 1/2 - so
the returned list is not exactly the clamped real roots of the cubic in the
window, refuting the claim as stated. -/
theorem findRootsOfT_counterexample :
    findRootsOfT 0 (EPS / 2, 1, 0, -(1 / 4)) = [1 / 2] ∧
    EPS / 2 * (1 / 2 : ℝ) ^ 3 + 1 * (1 / 2 : ℝ) ^ 2 + 0 * (1 / 2 : ℝ) +
      (-(1 / 4) - 0) ≠ 0 ∧
    (∀ r : ℝ, clamp r 0 1 = 1 / 2 → r = 1 / 2) := by
  have e0 : (0 : ℝ) < EPS := EPS_pos
  have e1 : EPS < 1 / 2 := EPS_lt_half
  have hq : getQuadRoots 1 0 (-(1 / 4) - 0) = [1 / 2, -(1 / 2)] := by
    unfold getQuadRoots
    rw [if_neg (show ¬ |(1 : ℝ)| < EPS by rw [abs_one]; linarith)]
    rw [show ((0 : ℝ) * 0 - 4 * 1 * (-(1 / 4) - 0)) = 1 by norm_num]
    rw [if_neg (show ¬ |(1 : ℝ)| < EPS by rw [abs_one]; linarith)]
    rw [if_pos (show (1 : ℝ) > 0 by norm_num)]
    rw [Real.sqrt_one]
    norm_num
  have hc : getCubicRoots (EPS / 2) 1 0 (-(1 / 4) - 0) =
      getQuadRoots 1 0 (-(1 / 4) - 0) := by
    unfold getCubicRoots
    rw [if_pos (show |EPS / 2| < EPS by rw [abs_of_pos (by linarith)]; linarith)]
  refine ⟨?_, ?_, ?_⟩
  · unfold findRootsOfT
    rw [if_neg (fun hcon => ne_of_gt (by linarith : (0 : ℝ) < EPS / 2) hcon.1)]
    have hx : getCubicRoots (EPS / 2) 1 0 (-(1 / 4) - 0) = [1 / 2, -(1 / 2)] :=
      hc.trans hq
    rw [hx]
    have f1 : (decide ((1 / 2 : ℝ) > -EPS) && decide ((1 / 2 : ℝ) ≤ 1 + EPS)) = true := by
      simp only [Bool.and_eq_true, decide_eq_true_eq]
      exact ⟨by linarith, by linarith⟩
    have f2 : (decide ((-(1 / 2) : ℝ) > -EPS) && decide ((-(1 / 2) : ℝ) ≤ 1 + EPS)) = false := by
      have hn : ¬ ((-(1 / 2) : ℝ) > -EPS) := by linarith
      rw [decide_eq_false hn, Bool.false_and]
    simp only [List.filter_cons, List.filter_nil, f1, f2, if_true,
      Bool.false_eq_true, if_false, List.map_cons, List.map_nil]
    rw [show clamp (1 / 2 : ℝ) 0 1 = 1 / 2 by unfold clamp; norm_num]
  · have hv : EPS / 2 * (1 / 2 : ℝ) ^ 3 + 1 * (1 / 2 : ℝ) ^ 2 + 0 * (1 / 2 : ℝ) +
        (-(1 / 4) - 0) = EPS / 16 := by ring
    rw [hv]
    positivity
  · intro r hr
    unfold clamp at hr
    split_ifs at hr with h1 h2
    · norm_num at hr
    · norm_num at hr
    · exact hr

theorem getControlPoints_open_witness :
    2 ≤ ([[0, 0], [1, 1]] : List Vec).length ∧
      (0 : ℕ) ≤ ([[0, 0], [1, 1]] : List Vec).length - 2 ∧
      getControlPoints ((([[0, 0], [1, 1]] : List Vec).length : ℤ) - 1)
        [[0, 0], [1, 1]] false = none := by
  refine ⟨by norm_num, by norm_num, ?_⟩
  exact (getControlPoints_open [[0, 0], [1, 1]] 0 (by norm_num) (by norm_num)).1

theorem mapM_eq_map {α β : Type} (f : α → Option β) (g : α → β) :
    ∀ l : List α, (∀ a ∈ l, f a = some (g a)) → l.mapM f = some (l.map g) := by
  intro l
  induction l with
  | nil => intro _; rfl
  | cons a l ih =>
    intro h
    rw [List.mapM_cons, h a (by simp), ih (fun x hx => h x (by simp [hx]))]
    rfl

theorem calculateCoefficientsChecked_eq (p0 p1 p2 p3 : Vec) (tension alpha : ℝ) :
    calculateCoefficientsChecked p0 p1 p2 p3 tension alpha =
      some (calculateCoefficients p0 p1 p2 p3 tension alpha) := by
  unfold calculateCoefficientsChecked calculateCoefficients
  apply mapM_eq_map
  intro k _
  by_cases hα : alpha > 0
  · simp only [if_pos hα]
    obtain ⟨t0, t1, t2, t3⟩ := calcKnotSequence p0 p1 p2 p3 alpha
    simp only
    by_cases h12 : t1 - t2 ≠ 0
    · simp only [if_pos h12]
      by_cases hu : t0 - t1 ≠ 0 ∧ t0 - t2 ≠ 0
      · by_cases hv : t1 - t3 ≠ 0 ∧ t2 - t3 ≠ 0
        · simp only [if_pos hu, if_pos hv, safeDiv, if_neg hu.1, if_neg hu.2,
            if_neg h12, if_neg hv.1, if_neg hv.2, Option.some_bind,
            Option.map_some']
        · simp only [if_pos hu, if_neg hv, safeDiv, if_neg hu.1, if_neg hu.2,
            if_neg h12, Option.some_bind, Option.map_some']
      · by_cases hv : t1 - t3 ≠ 0 ∧ t2 - t3 ≠ 0
        · simp only [if_neg hu, if_pos hv, safeDiv, if_neg h12, if_neg hv.1,
            if_neg hv.2, Option.some_bind, Option.map_some']
        · simp only [if_neg hu, if_neg hv, Option.some_bind, Option.map_some']
    · simp only [if_neg h12, Option.map_some']
  · simp only [if_neg hα, Option.map_some']

theorem jsIndex_isSome (pts : List Vec) (i : ℤ) (h0 : 0 ≤ i)
    (h : i < (pts.length : ℤ)) : jsIndex pts i = some (pts.getD i.toNat []) := by
  unfold jsIndex
  rw [if_neg (not_lt.mpr h0)]
  exact get?_eq_some_getD pts i.toNat [] (by omega)

theorem getControlPoints_isSome_open (pts : List Vec) (idx : ℤ) (h0 : 0 ≤ idx)
    (hlt : idx < (pts.length : ℤ) - 1) :
    ∃ q, getControlPoints idx pts false = some q := by
  unfold getControlPoints
  simp only [Bool.false_eq_true, if_false]
  rw [if_neg (by omega : ¬ idx = (pts.length : ℤ) - 1)]
  rw [jsIndex_isSome pts idx h0 (by omega)]
  rw [jsIndex_isSome pts (idx + 1) (by omega) (by omega)]
  simp only [Option.some_bind]
  by_cases hp : idx > 0
  · rw [if_pos hp, jsIndex_isSome pts (idx - 1) (by omega) (by omega)]
    simp only [Option.some_bind]
    by_cases hq : idx < (pts.length : ℤ) - 1 - 1
    · rw [if_pos hq, jsIndex_isSome pts (idx + 2) (by omega) (by omega)]
      exact ⟨_, rfl⟩
    · rw [if_neg hq]
      exact ⟨_, rfl⟩
  · rw [if_neg hp]
    simp only [Option.some_bind]
    by_cases hq : idx < (pts.length : ℤ) - 1 - 1
    · rw [if_pos hq, jsIndex_isSome pts (idx + 2) (by omega) (by omega)]
      exact ⟨_, rfl⟩
    · rw [if_neg hq]
      exact ⟨_, rfl⟩

theorem getControlPoints_isSome_closed (pts : List Vec) (idx : ℤ) (h0 : 0 ≤ idx)
    (hle : idx ≤ (pts.length : ℤ)) (h1 : 1 ≤ pts.length) :
    ∃ q, getControlPoints idx pts true = some q := by
  have hlen : (0 : ℤ) < (pts.length : ℤ) := by omega
  unfold getControlPoints
  simp only [if_true]
  have hm0 : 0 ≤ Int.tmod idx (pts.length : ℤ) := Int.tmod_nonneg _ h0
  have hm0' : Int.tmod idx (pts.length : ℤ) < (pts.length : ℤ) :=
    Int.tmod_lt_of_pos _ hlen
  have hm1 : 0 ≤ Int.tmod (idx + 1) (pts.length : ℤ) := Int.tmod_nonneg _ (by omega)
  have hm1' : Int.tmod (idx + 1) (pts.length : ℤ) < (pts.length : ℤ) :=
    Int.tmod_lt_of_pos _ hlen
  have hm2 : 0 ≤ Int.tmod (idx + 2) (pts.length : ℤ) := Int.tmod_nonneg _ (by omega)
  have hm2' : Int.tmod (idx + 2) (pts.length : ℤ) < (pts.length : ℤ) :=
    Int.tmod_lt_of_pos _ hlen
  by_cases hneg : idx - 1 < 0
  · rw [if_pos hneg, jsIndex_isSome pts ((pts.length : ℤ) - 1) (by omega) (by omega)]
    rw [jsIndex_isSome pts _ hm0 hm0', jsIndex_isSome pts _ hm1 hm1',
      jsIndex_isSome pts _ hm2 hm2']
    exact ⟨_, rfl⟩
  · rw [if_neg hneg, jsIndex_isSome pts (idx - 1) (by omega) (by omega)]
    rw [jsIndex_isSome pts _ hm0 hm0', jsIndex_isSome pts _ hm1 hm1',
      jsIndex_isSome pts _ hm2 hm2']
    exact ⟨_, rfl⟩

theorem getCoefficients_isSome_open (s : CurveState) (idx : ℤ) (h0 : 0 ≤ idx)
    (hcl : s.closed = false) (hlt : idx < (s.points.length : ℤ) - 1) :
    ∃ c, getCoefficients s idx = some c := by
  unfold getCoefficients
  rw [hcl]
  obtain ⟨q, hq⟩ := getControlPoints_isSome_open s.points idx h0 hlt
  rw [hq]
  exact ⟨_, rfl⟩

theorem getCoefficients_isSome_closed (s : CurveState) (idx : ℤ) (h0 : 0 ≤ idx)
    (hcl : s.closed = true) (hle : idx ≤ (s.points.length : ℤ))
    (h1 : 1 ≤ s.points.length) : ∃ c, getCoefficients s idx = some c := by
  unfold getCoefficients
  rw [hcl]
  obtain ⟨q, hq⟩ := getControlPoints_isSome_closed s.points idx h0 hle h1
  rw [hq]
  exact ⟨_, rfl⟩

theorem clamp_bounds (t : ℝ) : 0 ≤ clamp t 0 1 ∧ clamp t 0 1 ≤ 1 := by
  unfold clamp
  split_ifs <;> constructor <;> linarith

/-- The segment index computed for a curve time is within [0, nPoints-1] when
the time lies in [0, 1] (for t = 1 via the explicit shortcut). -/
theorem getSegmentIndexAndT_bounds (ct : ℝ) (pts : List Vec) (closed : Bool)
    (h0 : 0 ≤ ct) (h1 : ct ≤ 1)
    (hn : 1 ≤ (if closed then pts.length else pts.length - 1)) :
    0 ≤ (getSegmentIndexAndT ct pts closed).1 ∧
      (getSegmentIndexAndT ct pts closed).1 ≤
        ((if closed then pts.length else pts.length - 1 : ℕ) : ℤ) - 1 := by
  unfold getSegmentIndexAndT
  by_cases he : ct = 1
  · rw [if_pos he]
    constructor
    · simp only
      omega
    · exact le_refl _
  · rw [if_neg he]
    simp only
    set n : ℕ := if closed then pts.length else pts.length - 1 with hn'
    have hnr : (0 : ℝ) < (n : ℝ) := by
      have : 1 ≤ n := hn
      exact_mod_cast by omega
    constructor
    · apply Int.floor_nonneg.mpr
      positivity
    · have hlt : (n : ℝ) * ct < (n : ℝ) := by
        have : ct < 1 := lt_of_le_of_ne h1 he
        nlinarith
      have := Int.floor_lt.mpr (by exact_mod_cast hlt : (n : ℝ) * ct < ((n : ℤ) : ℝ))
      omega

/-- Totality of getPointAtT on the documented domain: with at least 2 control
points and t in [0, 1] the evaluation never reaches a throwing path. -/
theorem getPointAtT_isSome (s : CurveState) (t : ℝ) (h2 : 2 ≤ s.points.length)
    (ht0 : 0 ≤ t) (ht1 : t ≤ 1) : ∃ v, getPointAtT s t = some v := by
  simp only [getPointAtT]
  by_cases hz : clamp t 0 1 = 0
  · rw [if_pos hz]
    exact ⟨_, get?_eq_some_getD s.points 0 [] (by omega)⟩
  · rw [if_neg hz]
    by_cases ho : clamp t 0 1 = 1
    · rw [if_pos ho]
      cases hcl : s.closed
      · simp only [Bool.false_eq_true, if_false]
        exact ⟨_, get?_eq_some_getD s.points (s.points.length - 1) [] (by omega)⟩
      · simp only [if_true]
        exact ⟨_, get?_eq_some_getD s.points 0 [] (by omega)⟩
    · rw [if_neg ho]
      obtain ⟨hb0, hb1⟩ := clamp_bounds t
      cases hcl : s.closed
      · have hn : 1 ≤ (if (false : Bool) then s.points.length else s.points.length - 1) := by
          simp only [Bool.false_eq_true, if_false]
          omega
        obtain ⟨hi0, hi1⟩ := getSegmentIndexAndT_bounds (clamp t 0 1) s.points false hb0 hb1 hn
        simp only [Bool.false_eq_true, if_false] at hi1
        obtain ⟨c, hc⟩ := getCoefficients_isSome_open s
          (getSegmentIndexAndT (clamp t 0 1) s.points false).1 hi0 hcl (by omega)
        rw [hc]
        exact ⟨_, rfl⟩
      · have hn : 1 ≤ (if (true : Bool) then s.points.length else s.points.length - 1) := by
          simp only [if_true]
          omega
        obtain ⟨hi0, hi1⟩ := getSegmentIndexAndT_bounds (clamp t 0 1) s.points true hb0 hb1 hn
        simp only [if_true] at hi1
        obtain ⟨c, hc⟩ := getCoefficients_isSome_closed s
          (getSegmentIndexAndT (clamp t 0 1) s.points true).1 hi0 hcl (by omega) (by omega)
        rw [hc]
        exact ⟨_, rfl⟩

/-- C5: for every point set containing coincident adjacent control points and
any alpha > 0, every division in calculateCoefficients over the knot sequence
is guarded (the variant that fails on any zero denominator returns exactly the
plain coefficients, so no NaN/Infinity can arise), and getPointAtT on such a
curve does not throw: it returns a point for every t in [0, 1]. -/
theorem coincident_points_guarded (s : CurveState) (t : ℝ)
    (hα : 0 < s.alpha)
    (hco : ∃ i, i + 1 < s.points.length ∧
      s.points.getD i [] = s.points.getD (i + 1) [])
    (h2 : 2 ≤ s.points.length) (ht0 : 0 ≤ t) (ht1 : t ≤ 1) :
    (∀ p0 p1 p2 p3 : Vec,
      calculateCoefficientsChecked p0 p1 p2 p3 s.tension s.alpha =
        some (calculateCoefficients p0 p1 p2 p3 s.tension s.alpha)) ∧
    ∃ v, getPointAtT s t = some v :=
  ⟨fun p0 p1 p2 p3 => calculateCoefficientsChecked_eq p0 p1 p2 p3 s.tension s.alpha,
    getPointAtT_isSome s t h2 ht0 ht1⟩

theorem coincident_points_guarded_witness :
    (0 : ℝ) < (⟨[[0, 0], [0, 0], [1, 0]], 0.5, 0.5, false⟩ : CurveState).alpha ∧
    (⟨[[0, 0], [0, 0], [1, 0]], 0.5, 0.5, false⟩ : CurveState).points.getD 0 [] =
      (⟨[[0, 0], [0, 0], [1, 0]], 0.5, 0.5, false⟩ : CurveState).points.getD (0 + 1) [] ∧
    ∃ v, getPointAtT (⟨[[0, 0], [0, 0], [1, 0]], 0.5, 0.5, false⟩ : CurveState)
      (1 / 10) = some v := by
  refine ⟨by norm_num, rfl, ?_⟩
  exact (coincident_points_guarded ⟨[[0, 0], [0, 0], [1, 0]], 0.5, 0.5, false⟩
    (1 / 10) (by norm_num) ⟨0, by norm_num, rfl⟩ (by norm_num) (by norm_num)
    (by norm_num)).2

/-! Arc length machinery for C3. -/

theorem distance_nonneg (p1 p2 : Vec) : 0 ≤ distance p1 p2 := by
  simp only [distance]
  split_ifs
  · exact le_refl 0
  · exact Real.sqrt_nonneg _

theorem magnitude_nonneg (v : Vec) : 0 ≤ magnitude v := Real.sqrt_nonneg _

theorem getD_nonneg (l : List ℝ) (n : ℕ) (h : ∀ x ∈ l, 0 ≤ x) :
    0 ≤ l.getD n 0 := by
  by_cases hn : n < l.length
  · rw [List.getD_eq_getElem l 0 hn]
    exact h _ (List.getElem_mem hn)
  · rw [List.getD_eq_default l 0 (by omega)]

theorem arcAccumL_isSome (s : CurveState) (N : ℕ) (h2 : 2 ≤ s.points.length) :
    ∀ (steps p : ℕ) (last : Vec) (sum : ℝ), 1 ≤ p → p + steps ≤ N + 1 →
      ∃ l, arcAccumL s N steps p last sum = some l := by
  intro steps
  induction steps with
  | zero => exact fun p last sum _ _ => ⟨[], rfl⟩
  | succ n ih =>
    intro p last sum hp hpn
    have hpN : p ≤ N := by omega
    have hN : 1 ≤ N := by omega
    have hdiv0 : 0 ≤ (p : ℝ) / (N : ℝ) := by positivity
    have hdiv1 : (p : ℝ) / (N : ℝ) ≤ 1 := by
      rw [div_le_one (by exact_mod_cast hN : (0 : ℝ) < (N : ℝ))]
      exact_mod_cast hpN
    obtain ⟨v, hv⟩ := getPointAtT_isSome s ((p : ℝ) / (N : ℝ)) h2 hdiv0 hdiv1
    obtain ⟨l, hl⟩ := ih (p + 1) v (sum + distance v last) (by omega) (by omega)
    refine ⟨(sum + distance v last) :: l, ?_⟩
    unfold arcAccumL
    rw [hv, Option.some_bind, hl, Option.map_some']

theorem arcAccumL_nonneg (s : CurveState) (N : ℕ) :
    ∀ (steps p : ℕ) (last : Vec) (sum : ℝ) (l : List ℝ), 0 ≤ sum →
      arcAccumL s N steps p last sum = some l → ∀ x ∈ l, 0 ≤ x := by
  intro steps
  induction steps with
  | zero =>
    intro p last sum l _ hl
    unfold arcAccumL at hl
    obtain rfl : ([] : List ℝ) = l := Option.some.inj hl
    intro x hx
    exact absurd hx (List.not_mem_nil x)
  | succ n ih =>
    intro p last sum l hsum hl
    unfold arcAccumL at hl
    cases hv : getPointAtT s ((p : ℝ) / (N : ℝ)) with
    | none => rw [hv] at hl; exact absurd hl (by simp)
    | some v =>
      rw [hv, Option.some_bind] at hl
      cases hrest : arcAccumL s N n (p + 1) v (sum + distance v last) with
      | none => rw [hrest] at hl; exact absurd hl (by simp)
      | some rest =>
        rw [hrest, Option.map_some'] at hl
        obtain rfl : (sum + distance v last) :: rest = l := Option.some.inj hl
        have hs' : 0 ≤ sum + distance v last :=
          add_nonneg hsum (distance_nonneg v last)
        intro x hx
        rcases List.mem_cons.mp hx with rfl | hx'
        · exact hs'
        · exact ih (p + 1) v (sum + distance v last) rest hs' hrest x hx'

theorem computeArcLengthsL_spec (s : CurveState) (N : ℕ)
    (h2 : 2 ≤ s.points.length) :
    ∃ L, computeArcLengthsL s N = some L ∧ (∀ x ∈ L, 0 ≤ x) := by
  obtain ⟨first, hfirst⟩ := getPointAtT_isSome s 0 h2 (le_refl 0) (by norm_num)
  obtain ⟨rest, hrest⟩ := arcAccumL_isSome s N h2 N 1 first 0 (le_refl 1) (by omega)
  refine ⟨0 :: rest, ?_, ?_⟩
  · unfold computeArcLengthsL
    rw [hfirst, Option.some_bind, hrest, Option.map_some']
  · intro x hx
    rcases List.mem_cons.mp hx with rfl | hx'
    · exact le_refl 0
    · exact arcAccumL_nonneg s N N 1 first 0 rest (le_refl 0) hrest x hx'

theorem gaussFold_nonneg (coefficients : List NumArray4) (t0 z : ℝ) :
    ∀ (l : List (ℝ × ℝ)) (init : ℝ), (∀ TC ∈ l, 0 ≤ TC.2) → 0 ≤ init →
      0 ≤ l.foldl (fun sum TC =>
        sum + TC.2 * magnitude
          (evaluateForT derivativeAtT (z * TC.1 + z + t0) coefficients)) init := by
  intro l
  induction l with
  | nil => exact fun init _ h => h
  | cons a l ih =>
    intro init hl hinit
    simp only [List.foldl_cons]
    refine ih _ (fun TC h => hl TC (by simp [h])) ?_
    have ha : 0 ≤ a.2 := hl a (by simp)
    have hm : 0 ≤ magnitude (evaluateForT derivativeAtT (z * a.1 + z + t0) coefficients) :=
      magnitude_nonneg _
    have := mul_nonneg ha hm
    linarith

theorem quadLength_nonneg (gauss : List (ℝ × ℝ)) (coefficients : List NumArray4)
    (hg : ∀ TC ∈ gauss, 0 ≤ TC.2) : 0 ≤ quadLength gauss coefficients 0 1 := by
  simp only [quadLength]
  have hz : (0 : ℝ) ≤ (1 - 0) * 0.5 := by norm_num
  exact mul_nonneg hz
    (gaussFold_nonneg coefficients 0 ((1 - 0) * 0.5) gauss 0 hg (le_refl 0))

theorem computeArcLengthN_spec (s : CurveState) (gauss : List (ℝ × ℝ)) (i : ℕ)
    (h2 : 2 ≤ s.points.length)
    (hi : i < (if s.closed then s.points.length else s.points.length - 1))
    (hg : ∀ TC ∈ gauss, 0 ≤ TC.2) :
    ∃ x, computeArcLengthN s gauss (i : ℤ) 0 1 = some x ∧ 0 ≤ x := by
  unfold computeArcLengthN
  by_cases hcl : s.closed = true
  · rw [hcl] at hi
    simp only [if_true] at hi
    obtain ⟨c, hc⟩ := getCoefficients_isSome_closed s (i : ℤ) (by omega) hcl
      (by omega) (by omega)
    rw [hc, Option.map_some']
    exact ⟨_, rfl, quadLength_nonneg gauss c hg⟩
  · have hcl' : s.closed = false := by
      cases h : s.closed
      · rfl
      · exact absurd h hcl
    rw [hcl'] at hi
    simp only [Bool.false_eq_true, if_false] at hi
    obtain ⟨c, hc⟩ := getCoefficients_isSome_open s (i : ℤ) (by omega) hcl'
      (by omega)
    rw [hc, Option.map_some']
    exact ⟨_, rfl, quadLength_nonneg gauss c hg⟩

theorem arcAccumN_spec (s : CurveState) (gauss : List (ℝ × ℝ))
    (h2 : 2 ≤ s.points.length) (hg : ∀ TC ∈ gauss, 0 ≤ TC.2) :
    ∀ (steps i : ℕ) (tl : ℝ), 0 ≤ tl →
      i + steps ≤ (if s.closed then s.points.length else s.points.length - 1) →
      ∃ l, arcAccumN s gauss steps i tl = some l ∧ l.length = steps ∧
        ∀ x ∈ l, 0 ≤ x := by
  intro steps
  induction steps with
  | zero => exact fun i tl _ _ => ⟨[], rfl, rfl, by simp⟩
  | succ n ih =>
    intro i tl htl hin
    obtain ⟨x, hx, hx0⟩ := computeArcLengthN_spec s gauss i h2 (by omega) hg
    obtain ⟨l, hl, hlen, hpos⟩ := ih (i + 1) (tl + x) (by linarith) (by omega)
    refine ⟨(tl + x) :: l, ?_, by simp [hlen], ?_⟩
    · unfold arcAccumN
      rw [hx, Option.some_bind, hl, Option.map_some']
    · intro y hy
      rcases List.mem_cons.mp hy with rfl | hy'
      · linarith
      · exact hpos y hy'

theorem computeArcLengthsN_spec (s : CurveState) (gauss : List (ℝ × ℝ))
    (h2 : 2 ≤ s.points.length) (hg : ∀ TC ∈ gauss, 0 ≤ TC.2) :
    ∃ L, computeArcLengthsN s gauss = some L ∧
      L.length = (if s.closed then s.points.length else s.points.length - 1) + 1 ∧
      L.getD 0 0 = 0 ∧ ∀ x ∈ L, 0 ≤ x := by
  obtain ⟨l, hl, hlen, hpos⟩ := arcAccumN_spec s gauss h2 hg
    (if s.closed then s.points.length else s.points.length - 1) 0 0 (le_refl 0)
    (by omega)
  refine ⟨0 :: l, ?_, by simp [hlen], rfl, ?_⟩
  · simp only [computeArcLengthsN]
    rw [hl, Option.map_some']
  · intro x hx
    rcases List.mem_cons.mp hx with rfl | hx'
    · exact le_refl 0
    · exact hpos x hx'

/-- C3: for both mapper implementations over a curve with at least 2 control
points (the numerical one with a Gauss-Legendre table), lengthAt(0) = 0,
lengthAt is non-decreasing over u in [0,1], and lengthAt(1) is exactly the
last entry of the cumulative arc-length table (the reported total length). -/
theorem lengthAt_monotone_zero_total (s : CurveState) (N : ℕ)
    (gauss : List (ℝ × ℝ)) (h2 : 2 ≤ s.points.length) (hg : IsGaussTable gauss) :
    ∃ Ll Ln, computeArcLengthsL s N = some Ll ∧ computeArcLengthsN s gauss = some Ln ∧
      lengthAtL s N 0 = some 0 ∧ lengthAtN s gauss 0 = some 0 ∧
      lengthAtL s N 1 = some (Ll.getD (Ll.length - 1) 0) ∧
      lengthAtN s gauss 1 = some (Ln.getD (Ln.length - 1) 0) ∧
      (∀ u₁ u₂ l₁ l₂, 0 ≤ u₁ → u₁ ≤ u₂ → u₂ ≤ 1 →
        lengthAtL s N u₁ = some l₁ → lengthAtL s N u₂ = some l₂ → l₁ ≤ l₂) ∧
      (∀ u₁ u₂ l₁ l₂, 0 ≤ u₁ → u₁ ≤ u₂ → u₂ ≤ 1 →
        lengthAtN s gauss u₁ = some l₁ → lengthAtN s gauss u₂ = some l₂ → l₁ ≤ l₂) := by
  obtain ⟨Ll, hLl, hLlpos⟩ := computeArcLengthsL_spec s N h2
  have hgw : ∀ TC ∈ gauss, 0 ≤ TC.2 := fun TC h => le_of_lt (hg TC h).2.2
  obtain ⟨Ln, hLn, _, _, hLnpos⟩ := computeArcLengthsN_spec s gauss h2 hgw
  have htotL : 0 ≤ Ll.getD (Ll.length - 1) 0 := getD_nonneg Ll _ hLlpos
  have htotN : 0 ≤ Ln.getD (Ln.length - 1) 0 := getD_nonneg Ln _ hLnpos
  refine ⟨Ll, Ln, hLl, hLn, ?_, ?_, ?_, ?_, ?_, ?_⟩
  · unfold lengthAtL
    rw [hLl, Option.map_some', zero_mul]
  · unfold lengthAtN
    rw [hLn, Option.map_some', zero_mul]
  · unfold lengthAtL
    rw [hLl, Option.map_some', one_mul]
  · unfold lengthAtN
    rw [hLn, Option.map_some', one_mul]
  · intro u₁ u₂ l₁ l₂ _ h12 _ he1 he2
    unfold lengthAtL at he1 he2
    rw [hLl, Option.map_some'] at he1 he2
    obtain rfl := Option.some.inj he1
    obtain rfl := Option.some.inj he2
    exact mul_le_mul_of_nonneg_right h12 htotL
  · intro u₁ u₂ l₁ l₂ _ h12 _ he1 he2
    unfold lengthAtN at he1 he2
    rw [hLn, Option.map_some'] at he1 he2
    obtain rfl := Option.some.inj he1
    obtain rfl := Option.some.inj he2
    exact mul_le_mul_of_nonneg_right h12 htotN

theorem lengthAt_monotone_zero_total_witness :
    2 ≤ demoState.points.length ∧ IsGaussTable [((0 : ℝ), (2 : ℝ))] ∧
    ∃ Ll Ln, computeArcLengthsL demoState 1 = some Ll ∧
      computeArcLengthsN demoState [((0 : ℝ), (2 : ℝ))] = some Ln ∧
      lengthAtL demoState 1 0 = some 0 ∧
      lengthAtN demoState [((0 : ℝ), (2 : ℝ))] 0 = some 0 := by
  have hg : IsGaussTable [((0 : ℝ), (2 : ℝ))] := by
    intro TC h
    rcases List.mem_singleton.mp h with rfl
    norm_num
  have h2 : 2 ≤ demoState.points.length := by norm_num [demoState]
  obtain ⟨Ll, Ln, hLl, hLn, hz1, hz2, _, _, _, _⟩ :=
    lengthAt_monotone_zero_total demoState 1 [((0 : ℝ), (2 : ℝ))] h2 hg
  exact ⟨h2, hg, Ll, Ln, hLl, hLn, hz1, hz2⟩

/-! Binary search bracket facts and totality of the u/t mapping operations. -/

theorem bsLoop_spec (arr : List ℝ) (target : ℝ) :
    ∀ (fuel left right : ℕ),
      right ≤ arr.length - 1 → left ≤ right + 1 →
      (left = 0 ∨ arr.getD (left - 1) 0 < target) →
      right + 1 - left ≤ fuel →
      bsLoop arr target fuel left right ≤ arr.length - 1 ∧
        (bsLoop arr target fuel left right = 0 ∨
          arr.getD (bsLoop arr target fuel left right) 0 ≤ target) := by
  intro fuel
  induction fuel with
  | zero =>
    intro left right hr hlr hinv hfuel
    have hleft : left = right + 1 := by omega
    simp only [bsLoop]
    refine ⟨hr, ?_⟩
    rcases hinv with h0 | hlt
    · exfalso
      omega
    · right
      have he : left - 1 = right := by omega
      rw [he] at hlt
      exact le_of_lt hlt
  | succ n ih =>
    intro left right hr hlr hinv hfuel
    simp only [bsLoop]
    by_cases hc : left ≤ right
    · rw [if_pos hc]
      by_cases hlt : arr.getD ((left + right) / 2) 0 < target
      · rw [if_pos hlt]
        refine ih ((left + right) / 2 + 1) right hr (by omega) (Or.inr ?_) (by omega)
        simpa using hlt
      · rw [if_neg hlt]
        by_cases hgt : arr.getD ((left + right) / 2) 0 > target
        · rw [if_pos hgt]
          by_cases hm0 : (left + right) / 2 = 0
          · rw [if_pos hm0]
            exact ⟨by omega, Or.inl rfl⟩
          · rw [if_neg hm0]
            exact ih left ((left + right) / 2 - 1) (by omega) (by omega) hinv (by omega)
        · rw [if_neg hgt]
          exact ⟨by omega, Or.inr (not_lt.mp hgt)⟩
    · rw [if_neg hc]
      refine ⟨hr, ?_⟩
      rcases hinv with h0 | hlt
      · exfalso
        omega
      · right
        have he : left - 1 = right := by omega
        rw [he] at hlt
        exact le_of_lt hlt

theorem binarySearch_le (target : ℝ) (arr : List ℝ) (hne : 1 ≤ arr.length) :
    binarySearch target arr ≤ arr.length - 1 := by
  unfold binarySearch
  by_cases h1 : target ≥ arr.getD (arr.length - 1) 0
  · rw [if_pos h1]
  · rw [if_neg h1]
    by_cases h2 : target ≤ arr.getD 0 0
    · rw [if_pos h2]
      omega
    · rw [if_neg h2]
      refine (bsLoop_spec arr target arr.length 0 (arr.length - 1) (le_refl _)
        ?_ (Or.inl rfl) ?_).1 <;> omega

theorem binarySearch_le_target (target : ℝ) (arr : List ℝ) (hne : 1 ≤ arr.length)
    (hmax : target < arr.getD (arr.length - 1) 0) :
    binarySearch target arr = 0 ∨ arr.getD (binarySearch target arr) 0 ≤ target := by
  unfold binarySearch
  rw [if_neg (not_le.mpr hmax)]
  by_cases h2 : target ≤ arr.getD 0 0
  · rw [if_pos h2]
    exact Or.inl rfl
  · rw [if_neg h2]
    refine (bsLoop_spec arr target arr.length 0 (arr.length - 1) (le_refl _)
      ?_ (Or.inl rfl) ?_).2 <;> omega

theorem computeArcLengthN_isSome (s : CurveState) (gauss : List (ℝ × ℝ)) (i : ℕ)
    (t0 t1 : ℝ) (h2 : 2 ≤ s.points.length)
    (hi : i < (if s.closed then s.points.length else s.points.length - 1)) :
    ∃ x, computeArcLengthN s gauss (i : ℤ) t0 t1 = some x := by
  unfold computeArcLengthN
  by_cases hcl : s.closed = true
  · rw [hcl] at hi
    simp only [if_true] at hi
    obtain ⟨c, hc⟩ := getCoefficients_isSome_closed s (i : ℤ) (by omega) hcl
      (by omega) (by omega)
    rw [hc, Option.map_some']
    exact ⟨_, rfl⟩
  · have hcl' : s.closed = false := by
      cases h : s.closed
      · rfl
      · exact absurd h hcl
    rw [hcl'] at hi
    simp only [Bool.false_eq_true, if_false] at hi
    obtain ⟨c, hc⟩ := getCoefficients_isSome_open s (i : ℤ) (by omega) hcl' (by omega)
    rw [hc, Option.map_some']
    exact ⟨_, rfl⟩

theorem getTangentAtT_isSome (s : CurveState) (t : ℝ) (h2 : 2 ≤ s.points.length)
    (ht0 : 0 ≤ t) (ht1 : t ≤ 1) : ∃ v, getTangentAtT s t = some v := by
  simp only [getTangentAtT]
  obtain ⟨hb0, hb1⟩ := clamp_bounds t
  cases hcl : s.closed
  · have hn : 1 ≤ (if (false : Bool) then s.points.length else s.points.length - 1) := by
      simp only [Bool.false_eq_true, if_false]
      omega
    obtain ⟨hi0, hi1⟩ := getSegmentIndexAndT_bounds (clamp t 0 1) s.points false hb0 hb1 hn
    simp only [Bool.false_eq_true, if_false] at hi1
    obtain ⟨c, hc⟩ := getCoefficients_isSome_open s
      (getSegmentIndexAndT (clamp t 0 1) s.points false).1 hi0 hcl (by omega)
    rw [hc]
    exact ⟨_, rfl⟩
  · have hn : 1 ≤ (if (true : Bool) then s.points.length else s.points.length - 1) := by
      simp only [if_true]
      omega
    obtain ⟨hi0, hi1⟩ := getSegmentIndexAndT_bounds (clamp t 0 1) s.points true hb0 hb1 hn
    simp only [if_true] at hi1
    obtain ⟨c, hc⟩ := getCoefficients_isSome_closed s
      (getSegmentIndexAndT (clamp t 0 1) s.points true).1 hi0 hcl (by omega) (by omega)
    rw [hc]
    exact ⟨_, rfl⟩

theorem lengthAtL_isSome (s : CurveState) (N : ℕ) (u : ℝ)
    (h2 : 2 ≤ s.points.length) : ∃ x, lengthAtL s N u = some x := by
  obtain ⟨L, hL, _⟩ := computeArcLengthsL_spec s N h2
  unfold lengthAtL
  rw [hL, Option.map_some']
  exact ⟨_, rfl⟩

theorem getT_L_isSome (s : CurveState) (N : ℕ) (u : ℝ)
    (h2 : 2 ≤ s.points.length) : ∃ x, getT_L s N u = some x := by
  obtain ⟨L, hL, _⟩ := computeArcLengthsL_spec s N h2
  unfold getT_L
  rw [hL, Option.map_some']
  exact ⟨_, rfl⟩

theorem getU_L_isSome (s : CurveState) (N : ℕ) (t : ℝ)
    (h2 : 2 ≤ s.points.length) (ht0 : 0 ≤ t) (ht1 : t ≤ 1) :
    ∃ x, getU_L s N t = some x := by
  unfold getU_L
  by_cases h0 : t = 0
  · rw [if_pos h0]
    exact ⟨_, rfl⟩
  · rw [if_neg h0]
    by_cases h1 : t = 1
    · rw [if_pos h1]
      exact ⟨_, rfl⟩
    · rw [if_neg h1]
      obtain ⟨L, hL, _⟩ := computeArcLengthsL_spec s N h2
      simp only [hL, Option.some_bind]
      by_cases hhit : t * ((L.length - 1 : ℕ) : ℝ) =
          (((⌊t * ((L.length - 1 : ℕ) : ℝ)⌋).toNat : ℕ) : ℝ)
      · rw [if_pos hhit]
        exact ⟨_, rfl⟩
      · rw [if_neg hhit]
        have hal : 1 ≤ L.length - 1 := by
          by_contra hal
          have hz : L.length - 1 = 0 := by omega
          rw [hz] at hhit
          simp at hhit
        have htlt : t < 1 := lt_of_le_of_ne ht1 h1
        have halr : (0 : ℝ) < ((L.length - 1 : ℕ) : ℝ) := by exact_mod_cast by omega
        have hfl0 : 0 ≤ ⌊t * ((L.length - 1 : ℕ) : ℝ)⌋ :=
          Int.floor_nonneg.mpr (by positivity)
        have hflt : ⌊t * ((L.length - 1 : ℕ) : ℝ)⌋ < ((L.length - 1 : ℕ) : ℤ) := by
          apply Int.floor_lt.mpr
          push_cast
          nlinarith
        have ht0' : (0 : ℝ) ≤ (((⌊t * ((L.length - 1 : ℕ) : ℝ)⌋).toNat : ℕ) : ℝ) /
            ((L.length - 1 : ℕ) : ℝ) := by positivity
        have ht1' : (((⌊t * ((L.length - 1 : ℕ) : ℝ)⌋).toNat : ℕ) : ℝ) /
            ((L.length - 1 : ℕ) : ℝ) ≤ 1 := by
          rw [div_le_one halr]
          have : ((⌊t * ((L.length - 1 : ℕ) : ℝ)⌋).toNat : ℕ) ≤ L.length - 1 := by omega
          exact_mod_cast this
        obtain ⟨p0, hp0⟩ := getPointAtT_isSome s _ h2 ht0' ht1'
        obtain ⟨p1, hp1⟩ := getPointAtT_isSome s t h2 ht0 ht1
        simp only [hp0, Option.some_bind, hp1, Option.map_some']
        exact ⟨_, rfl⟩

theorem getCoefficients_isSome_seg (s : CurveState) (i : ℕ)
    (h2 : 2 ≤ s.points.length)
    (hi : i < (if s.closed then s.points.length else s.points.length - 1)) :
    ∃ c, getCoefficients s (i : ℤ) = some c := by
  by_cases hcl : s.closed = true
  · rw [hcl] at hi
    simp only [if_true] at hi
    exact getCoefficients_isSome_closed s (i : ℤ) (by omega) hcl (by omega) (by omega)
  · have hcl' : s.closed = false := by
      cases h : s.closed
      · rfl
      · exact absurd h hcl
    rw [hcl'] at hi
    simp only [Bool.false_eq_true, if_false] at hi
    exact getCoefficients_isSome_open s (i : ℤ) (by omega) hcl' (by omega)

theorem getSamplesN_isSome (s : CurveState) (gauss : List (ℝ × ℝ)) (nSamples : ℕ)
    (i : ℕ) (h2 : 2 ≤ s.points.length)
    (hi : i < (if s.closed then s.points.length else s.points.length - 1)) :
    ∃ q, getSamplesN s gauss nSamples (i : ℤ) = some q := by
  obtain ⟨c, hc⟩ := getCoefficients_isSome_seg s i h2 hi
  unfold getSamplesN
  rw [hc, Option.map_some']
  exact ⟨_, rfl⟩

theorem inverseN_isSome (s : CurveState) (gauss : List (ℝ × ℝ)) (nSamples : ℕ)
    (i : ℕ) (len : ℝ) (h2 : 2 ≤ s.points.length)
    (hi : i < (if s.closed then s.points.length else s.points.length - 1)) :
    ∃ x, inverseN s gauss nSamples (i : ℤ) len = some x := by
  obtain ⟨q, hq⟩ := getSamplesN_isSome s gauss nSamples i h2 hi
  unfold inverseN
  rw [hq, Option.map_some']
  exact ⟨_, rfl⟩

theorem lengthAtN_isSome (s : CurveState) (gauss : List (ℝ × ℝ)) (u : ℝ)
    (h2 : 2 ≤ s.points.length) (hg : ∀ TC ∈ gauss, 0 ≤ TC.2) :
    ∃ x, lengthAtN s gauss u = some x := by
  obtain ⟨L, hL, _, _, _⟩ := computeArcLengthsN_spec s gauss h2 hg
  unfold lengthAtN
  rw [hL, Option.map_some']
  exact ⟨_, rfl⟩

theorem nSegments_pos (s : CurveState) (h2 : 2 ≤ s.points.length) :
    1 ≤ (if s.closed then s.points.length else s.points.length - 1) := by
  by_cases hcl : s.closed = true
  · rw [hcl]
    simp only [if_true]
    omega
  · have hcl' : s.closed = false := by
      cases h : s.closed
      · rfl
      · exact absurd h hcl
    rw [hcl']
    simp only [Bool.false_eq_true, if_false]
    omega

theorem getT_N_isSome (s : CurveState) (gauss : List (ℝ × ℝ)) (nSamples : ℕ)
    (u : ℝ) (h2 : 2 ≤ s.points.length) (hg : ∀ TC ∈ gauss, 0 ≤ TC.2)
    (hu0 : 0 ≤ u) (hu1 : u ≤ 1) : ∃ x, getT_N s gauss nSamples u = some x := by
  obtain ⟨L, hL, hlen, hfirst, hpos⟩ := computeArcLengthsN_spec s gauss h2 hg
  have hnp : 1 ≤ (if s.closed then s.points.length else s.points.length - 1) :=
    nSegments_pos s h2
  have hne : 1 ≤ L.length := by omega
  simp only [getT_N, hL, Option.some_bind]
  by_cases hhit : L.getD (binarySearch (u * L.getD (L.length - 1) 0) L) 0 =
      u * L.getD (L.length - 1) 0
  · rw [if_pos hhit]
    exact ⟨_, rfl⟩
  · rw [if_neg hhit]
    have htot : 0 ≤ L.getD (L.length - 1) 0 := getD_nonneg _ _ hpos
    have htgt1 : u * L.getD (L.length - 1) 0 ≤ L.getD (L.length - 1) 0 := by
      nlinarith
    by_cases hmax : u * L.getD (L.length - 1) 0 < L.getD (L.length - 1) 0
    · have hile : binarySearch (u * L.getD (L.length - 1) 0) L ≤ L.length - 1 :=
        binarySearch_le _ L hne
    -- the returned index addresses a real segment: it cannot be the last entry
      have hilt : binarySearch (u * L.getD (L.length - 1) 0) L <
          (if s.closed then s.points.length else s.points.length - 1) := by
        rcases binarySearch_le_target (u * L.getD (L.length - 1) 0) L hne hmax with
          hz | hle
        · rw [hz]
          omega
        · by_cases hieq : binarySearch (u * L.getD (L.length - 1) 0) L = L.length - 1
          · rw [hieq] at hle
            exfalso
            linarith
          · omega
      obtain ⟨x, hx⟩ := inverseN_isSome s gauss nSamples _ _ h2 hilt
      rw [hx, Option.map_some']
      exact ⟨_, rfl⟩
    · exfalso
      apply hhit
      have heq : u * L.getD (L.length - 1) 0 = L.getD (L.length - 1) 0 :=
        le_antisymm htgt1 (not_lt.mp hmax)
      have hbe : binarySearch (u * L.getD (L.length - 1) 0) L = L.length - 1 := by
        unfold binarySearch
        rw [if_pos (le_of_eq heq.symm)]
      rw [hbe, heq]

theorem getU_N_isSome (s : CurveState) (gauss : List (ℝ × ℝ)) (t : ℝ)
    (h2 : 2 ≤ s.points.length) (hg : ∀ TC ∈ gauss, 0 ≤ TC.2)
    (ht0 : 0 ≤ t) (ht1 : t ≤ 1) : ∃ x, getU_N s gauss t = some x := by
  unfold getU_N
  by_cases h0 : t = 0
  · rw [if_pos h0]
    exact ⟨_, rfl⟩
  · rw [if_neg h0]
    by_cases h1 : t = 1
    · rw [if_pos h1]
      exact ⟨_, rfl⟩
    · rw [if_neg h1]
      obtain ⟨L, hL, hlen, hfirst, hpos⟩ := computeArcLengthsN_spec s gauss h2 hg
      simp only [hL, Option.some_bind]
      by_cases hhit : t * ((L.length - 1 : ℕ) : ℝ) =
          (((⌊t * ((L.length - 1 : ℕ) : ℝ)⌋).toNat : ℕ) : ℝ)
      · rw [if_pos hhit]
        exact ⟨_, rfl⟩
      · rw [if_neg hhit]
        have hnp : 1 ≤ (if s.closed then s.points.length else s.points.length - 1) :=
          nSegments_pos s h2
        have hal : 1 ≤ L.length - 1 := by omega
        have htlt : t < 1 := lt_of_le_of_ne ht1 h1
        have hflt : ⌊t * ((L.length - 1 : ℕ) : ℝ)⌋ < ((L.length - 1 : ℕ) : ℤ) := by
          apply Int.floor_lt.mpr
          push_cast
          have halr : (0 : ℝ) < ((L.length - 1 : ℕ) : ℝ) := by exact_mod_cast by omega
          nlinarith
        have hsub : (⌊t * ((L.length - 1 : ℕ) : ℝ)⌋).toNat <
            (if s.closed then s.points.length else s.points.length - 1) := by omega
        obtain ⟨x, hx⟩ := computeArcLengthN_isSome s gauss _ 0
          (t * ((L.length - 1 : ℕ) : ℝ) - (((⌊t * ((L.length - 1 : ℕ) : ℝ)⌋).toNat : ℕ) : ℝ))
          h2 hsub
        rw [hx, Option.map_some']
        exact ⟨_, rfl⟩

theorem clamp_idem (t : ℝ) : clamp (clamp t 0 1) 0 1 = clamp t 0 1 := by
  unfold clamp
  split_ifs <;> first | rfl | linarith

theorem getPointAtT_clamp_eq (s : CurveState) (t : ℝ) :
    getPointAtT s t = getPointAtT s (clamp t 0 1) := by
  simp only [getPointAtT, clamp_idem]

theorem getTangentAtT_clamp_eq (s : CurveState) (t : ℝ) :
    getTangentAtT s t = getTangentAtT s (clamp t 0 1) := by
  simp only [getTangentAtT, clamp_idem]

theorem clamp_two : clamp 2 0 1 = 1 := by
  unfold clamp
  norm_num

theorem demo_point_right (t : ℝ) (h : clamp t 0 1 = 1) :
    getPointAtT demoState t = some [1, 0] := by
  simp only [getPointAtT, h]
  rw [if_neg (by norm_num : ¬ (1 : ℝ) = 0)]
  rw [if_pos trivial]
  rfl

theorem demo_point_zero : getPointAtT demoState 0 = some [0, 0] := by
  simp only [getPointAtT, clamp_zero]
  rw [if_pos trivial]
  rfl

theorem demo_noclamp_none : getPointAtTNoClamp demoState 2 = none := by
  simp only [getPointAtTNoClamp]
  rw [if_neg (by norm_num : (2 : ℝ) ≠ 0), if_neg (by norm_num : (2 : ℝ) ≠ 1)]
  have hidx : (getSegmentIndexAndT 2 demoState.points demoState.closed).1 = 2 := by
    simp only [getSegmentIndexAndT]
    rw [if_neg (by norm_num : (2 : ℝ) ≠ 1)]
    have hnp : (if demoState.closed then demoState.points.length
        else demoState.points.length - 1) = 1 := rfl
    rw [hnp]
    simp only
    rw [show (((1 : ℕ) : ℝ)) * 2 = ((2 : ℤ) : ℝ) by norm_num]
    exact Int.floor_intCast 2
  rw [hidx]
  have hgc : getCoefficients demoState 2 = none := by
    unfold getCoefficients getControlPoints
    rfl
  rw [hgc]
  rfl

theorem arcAccumL_zero_eq (s : CurveState) (N p : ℕ) (last : Vec) (sum : ℝ) :
    arcAccumL s N 0 p last sum = some [] := rfl

theorem arcAccumL_succ_eq (s : CurveState) (N steps p : ℕ) (last : Vec) (sum : ℝ) :
    arcAccumL s N (steps + 1) p last sum =
      (getPointAtT s ((p : ℝ) / (N : ℝ))).bind fun current =>
        (arcAccumL s N steps (p + 1) current (sum + distance current last)).map
          fun rest => (sum + distance current last) :: rest := rfl

theorem demo_distance : distance [1, 0] [0, 0] = 1 := by
  have hs : sumOfSquares [1, 0] [0, 0] = 1 := by
    simp [sumOfSquares, List.range_succ]
  simp only [distance, hs]
  rw [if_neg (one_ne_zero : (1 : ℝ) ≠ 0), Real.sqrt_one]

theorem demo_arcLengthsL : computeArcLengthsL demoState 1 = some [0, 1] := by
  unfold computeArcLengthsL
  rw [demo_point_zero, Option.some_bind]
  have hstep : arcAccumL demoState 1 1 1 [0, 0] 0 = some [1] := by
    rw [arcAccumL_succ_eq]
    rw [show (((1 : ℕ) : ℝ)) / (((1 : ℕ) : ℝ)) = 1 by norm_num]
    rw [demo_point_right 1 clamp_one, Option.some_bind]
    rw [arcAccumL_zero_eq, Option.map_some']
    rw [demo_distance]
    norm_num
  rw [hstep, Option.map_some']

theorem demo_lengthAtL_two : lengthAtL demoState 1 2 = some 2 := by
  unfold lengthAtL
  rw [demo_arcLengthsL, Option.map_some']
  norm_num

theorem demo_lengthAtL_one : lengthAtL demoState 1 1 = some 1 := by
  unfold lengthAtL
  rw [demo_arcLengthsL, Option.map_some']
  norm_num

theorem clamp_negone : clamp (-1) 0 1 = 0 := by
  unfold clamp
  norm_num

theorem demo_getT_L_negone : getT_L demoState 1 (-1) = some (-1) := by
  norm_num [getT_L, demo_arcLengthsL, binarySearch]

theorem demo_getT_L_zero : getT_L demoState 1 0 = some 0 := by
  norm_num [getT_L, demo_arcLengthsL, binarySearch]

theorem demo_getU_L_two : getU_L demoState 1 2 = some 0 := by
  norm_num [getU_L, demo_arcLengthsL]
  rw [show Int.toNat 2 = 2 from rfl]
  norm_num

theorem demo_getU_L_one : getU_L demoState 1 1 = some 1 := by
  norm_num [getU_L]

theorem arcAccumN_zero_eq (s : CurveState) (gauss : List (ℝ × ℝ)) (i : ℕ)
    (tl : ℝ) : arcAccumN s gauss 0 i tl = some [] := rfl

theorem arcAccumN_succ_eq (s : CurveState) (gauss : List (ℝ × ℝ)) (steps i : ℕ)
    (tl : ℝ) : arcAccumN s gauss (steps + 1) i tl =
      (computeArcLengthN s gauss (i : ℤ) 0 1).bind fun length =>
        (arcAccumN s gauss steps (i + 1) (tl + length)).map fun rest =>
          (tl + length) :: rest := rfl

theorem demo_controlPoints0 : getControlPoints 0 demoState.points demoState.closed =
    some (extrapolateControlPoint [0, 0] [1, 0], [0, 0], [1, 0],
      extrapolateControlPoint [1, 0] [0, 0]) := rfl

theorem demo_coefficients0 : getCoefficients demoState 0 =
    some [((-1 : ℝ), 1.5, 0.5, 0), ((0 : ℝ), 0, 0, 0)] := by
  unfold getCoefficients
  rw [demo_controlPoints0, Option.map_some']
  norm_num [demoState, calculateCoefficients, extrapolateControlPoint,
    List.range_succ, Prod.mk.injEq]

theorem demo_coefficients1_none : getCoefficients demoState 1 = none := by
  unfold getCoefficients getControlPoints
  rfl

theorem demo_evaluate_derivative :
    evaluateForT derivativeAtT (0.5 : ℝ)
      [((-1 : ℝ), 1.5, 0.5, 0), ((0 : ℝ), 0, 0, 0)] = [1.25, 0] := by
  norm_num [evaluateForT, derivativeAtT]

theorem demo_magnitude : magnitude [(1.25 : ℝ), 0] = 1.25 := by
  unfold magnitude
  rw [show ((List.range (List.length [(1.25 : ℝ), 0])).foldl
      (fun s i => s + List.getD [(1.25 : ℝ), 0] i 0 * List.getD [(1.25 : ℝ), 0] i 0)
      0) = (1.25 : ℝ) ^ 2 by norm_num [List.range_succ]]
  exact Real.sqrt_sq (by norm_num)

theorem demo_quadLength :
    quadLength [((0 : ℝ), (2 : ℝ))] [((-1 : ℝ), 1.5, 0.5, 0), ((0 : ℝ), 0, 0, 0)]
      0 1 = 1.25 := by
  simp only [quadLength, List.foldl_cons, List.foldl_nil]
  rw [show ((1 : ℝ) - 0) * 0.5 * (((0 : ℝ), (2 : ℝ)).1) + ((1 : ℝ) - 0) * 0.5 + 0 =
    (0.5 : ℝ) by norm_num]
  rw [demo_evaluate_derivative, demo_magnitude]
  norm_num

theorem demo_computeArcLengthN0 :
    computeArcLengthN demoState [((0 : ℝ), (2 : ℝ))] ((0 : ℕ) : ℤ) 0 1 =
      some 1.25 := by
  unfold computeArcLengthN
  rw [Nat.cast_zero, demo_coefficients0, Option.map_some', demo_quadLength]

theorem demo_arcLengthsN :
    computeArcLengthsN demoState [((0 : ℝ), (2 : ℝ))] = some [0, 1.25] := by
  simp only [computeArcLengthsN]
  rw [show (if demoState.closed = true then demoState.points.length
    else demoState.points.length - 1) = 1 from rfl]
  rw [arcAccumN_succ_eq, demo_computeArcLengthN0, Option.some_bind,
    arcAccumN_zero_eq, Option.map_some']
  norm_num

theorem demo_getSamplesN1_none :
    getSamplesN demoState [((0 : ℝ), (2 : ℝ))] 21 (1 : ℤ) = none := by
  unfold getSamplesN
  rw [demo_coefficients1_none]
  rfl

theorem demo_inverseN1_none (len : ℝ) :
    inverseN demoState [((0 : ℝ), (2 : ℝ))] 21 (1 : ℤ) len = none := by
  unfold inverseN
  rw [demo_getSamplesN1_none]
  rfl

theorem demo_getT_N_two :
    getT_N demoState [((0 : ℝ), (2 : ℝ))] 21 2 = none := by
  norm_num [getT_N, demo_arcLengthsN, binarySearch, demo_inverseN1_none]

theorem demo_getT_N_one :
    getT_N demoState [((0 : ℝ), (2 : ℝ))] 21 1 = some 1 := by
  norm_num [getT_N, demo_arcLengthsN, binarySearch]

theorem demo_getU_N_two :
    getU_N demoState [((0 : ℝ), (2 : ℝ))] 2 = some 0 := by
  norm_num [getU_N, demo_arcLengthsN]
  rw [show Int.toNat 2 = 2 from rfl]
  norm_num

theorem demo_getU_N_one :
    getU_N demoState [((0 : ℝ), (2 : ℝ))] 1 = some 1 := by
  norm_num [getU_N]

/-- C9 counterexample: getPointAtT is computed by first clamping t into [0,1]
(the source starts with t = clamp(t, 0.0, 1.0)): at the out-of-range input
t = 2 on a two-point open curve it returns the clamped result - the point at
t = 1 - whereas the claim's no-clamp semantics (only the exact t = 0/1
shortcut) reaches segment index 2 and crashes on the missing control point. -/
theorem getPointAtT_clamps_counterexample :
    clamp 2 0 1 ≠ 2 ∧
    getPointAtT demoState 2 = some [1, 0] ∧
    getPointAtT demoState 2 = getPointAtT demoState (clamp 2 0 1) ∧
    getPointAtTNoClamp demoState 2 = none := by
  refine ⟨by rw [clamp_two]; norm_num, demo_point_right 2 clamp_two, ?_,
    demo_noclamp_none⟩
  exact getPointAtT_clamp_eq demoState 2

/-- C9 (amended): getPointAtT and getTangentAtT are computed by first clamping
t into [0,1] (so out-of-range inputs collapse to the endpoint results), while
lengthAt, getT and getU perform no input clamping on either mapper - on the
demonstration curve's linear mapper, lengthAt(2) = 2 x total, getT(-1) = -1
and getU(2) reads past the arc-length table and differs from getU(1); on its
numerical mapper, getT(2) reaches the nonexistent last open segment and
throws instead of clamping, and getU(2) likewise differs from getU(1); and
every core operation - getPointAtT, getTangentAtT, lengthAt, getT and getU,
on both mappers - is total over the documented domain t,u in [0,1] for curves
with at least 2 control points. -/
theorem core_clamping_and_totality (s : CurveState) (N nSamples : ℕ)
    (gauss : List (ℝ × ℝ)) (t u : ℝ) (h2 : 2 ≤ s.points.length)
    (hg : IsGaussTable gauss) (ht0 : 0 ≤ t) (ht1 : t ≤ 1) (hu0 : 0 ≤ u)
    (hu1 : u ≤ 1) :
    (∀ (s' : CurveState) (t' : ℝ), getPointAtT s' t' = getPointAtT s' (clamp t' 0 1)) ∧
    (∀ (s' : CurveState) (t' : ℝ), getTangentAtT s' t' = getTangentAtT s' (clamp t' 0 1)) ∧
    lengthAtL demoState 1 2 ≠ lengthAtL demoState 1 (clamp 2 0 1) ∧
    getT_L demoState 1 (-1) ≠ getT_L demoState 1 (clamp (-1) 0 1) ∧
    getU_L demoState 1 2 ≠ getU_L demoState 1 (clamp 2 0 1) ∧
    getT_N demoState [((0 : ℝ), (2 : ℝ))] 21 2 = none ∧
    getT_N demoState [((0 : ℝ), (2 : ℝ))] 21 (clamp 2 0 1) = some 1 ∧
    getU_N demoState [((0 : ℝ), (2 : ℝ))] 2 ≠
      getU_N demoState [((0 : ℝ), (2 : ℝ))] (clamp 2 0 1) ∧
    (∃ v, getPointAtT s t = some v) ∧ (∃ v, getTangentAtT s t = some v) ∧
    (∃ x, lengthAtL s N u = some x) ∧ (∃ x, getT_L s N u = some x) ∧
    (∃ x, getU_L s N t = some x) ∧ (∃ x, lengthAtN s gauss u = some x) ∧
    (∃ x, getT_N s gauss nSamples u = some x) ∧ (∃ x, getU_N s gauss t = some x) := by
  have hgw : ∀ TC ∈ gauss, 0 ≤ TC.2 := fun TC h => le_of_lt (hg TC h).2.2
  refine ⟨getPointAtT_clamp_eq, getTangentAtT_clamp_eq, ?_, ?_, ?_,
    demo_getT_N_two, ?_, ?_,
    getPointAtT_isSome s t h2 ht0 ht1, getTangentAtT_isSome s t h2 ht0 ht1,
    lengthAtL_isSome s N u h2, getT_L_isSome s N u h2,
    getU_L_isSome s N t h2 ht0 ht1, lengthAtN_isSome s gauss u h2 hgw,
    getT_N_isSome s gauss nSamples u h2 hgw hu0 hu1,
    getU_N_isSome s gauss t h2 hgw ht0 ht1⟩
  · rw [demo_lengthAtL_two, clamp_two, demo_lengthAtL_one]
    simp
  · rw [clamp_negone, demo_getT_L_negone, demo_getT_L_zero]
    simp only [ne_eq, Option.some.injEq]
    norm_num
  · rw [clamp_two, demo_getU_L_two, demo_getU_L_one]
    simp only [ne_eq, Option.some.injEq]
    norm_num
  · rw [clamp_two]
    exact demo_getT_N_one
  · rw [clamp_two, demo_getU_N_two, demo_getU_N_one]
    simp only [ne_eq, Option.some.injEq]
    norm_num

theorem core_clamping_and_totality_witness :
    2 ≤ demoState.points.length ∧ IsGaussTable [((0 : ℝ), (2 : ℝ))] ∧
    (∃ v, getPointAtT demoState (1 / 2) = some v) ∧
    (∃ x, getT_N demoState [((0 : ℝ), (2 : ℝ))] 21 (1 / 2) = some x) := by
  have hg : IsGaussTable [((0 : ℝ), (2 : ℝ))] := by
    intro TC h
    rcases List.mem_singleton.mp h with rfl
    norm_num
  have h2 : 2 ≤ demoState.points.length := by norm_num [demoState]
  obtain ⟨_, _, _, _, _, _, _, _, hpt, _, _, _, _, _, hgt, _⟩ :=
    core_clamping_and_totality demoState 300 21 [((0 : ℝ), (2 : ℝ))] (1 / 2) (1 / 2)
      h2 hg (by norm_num) (by norm_num) (by norm_num) (by norm_num)
  exact ⟨h2, hg, hpt, hgt⟩

theorem invalidateCacheBase_some (s : MapperState) (hp : s.points ≠ none) :
    invalidateCacheBase s = { s with cache := emptyCache, fired := s.fired + 1 } := by
  obtain ⟨pl, hpl⟩ := Option.ne_none_iff_exists'.mp hp
  unfold invalidateCacheBase
  rw [hpl]

theorem invalidateCacheNumerical_some (s : MapperState) (hp : s.points ≠ none) :
    invalidateCacheNumerical s =
      { s with cache := emptyCache, fired := s.fired + 1 } := by
  unfold invalidateCacheNumerical
  rw [invalidateCacheBase_some s hp]
  rfl

/-- C8 counterexample: on a mapper whose points have not yet been set, the
tension setter changes the stored value, but _invalidateCache returns early
(if (!this.points) return), so the onInvalidateCache callback does not fire -
for either mapper's invalidation - refuting the claim that every
value-changing setter call synchronously fires the callback before
returning. -/
theorem setter_no_callback_counterexample :
    (setTension invalidateCacheBase freshMapper 0.7).tension = 0.7 ∧
    (setTension invalidateCacheBase freshMapper 0.7).tension ≠ freshMapper.tension ∧
    (setTension invalidateCacheBase freshMapper 0.7).fired = freshMapper.fired ∧
    (setTension invalidateCacheNumerical freshMapper 0.7).fired = freshMapper.fired := by
  have hne : (0.7 : ℝ) ≠ freshMapper.tension := by norm_num [freshMapper]
  refine ⟨?_, ?_, ?_, ?_⟩
  · unfold setTension
    rw [if_pos hne]
  · unfold setTension
    rw [if_pos hne]
    exact hne
  · unfold setTension
    rw [if_pos hne]
    rfl
  · unfold setTension
    rw [if_pos hne]
    rfl

/-- C8 (amended): setting the mapper's points to null or to fewer than 2
control points throws; and - provided the mapper's points are present (while
points are unset, _invalidateCache returns early and no callback fires) -
every setter call that changes the stored value replaces the derived cache
wholesale with the empty cache and fires the onInvalidateCache callback
exactly once before returning; setPoints assigns before invalidating, so it
always clears and fires. -/
theorem setters_invalidate (s : MapperState) (l : List Vec) (tension alpha : ℝ)
    (closed : Bool) (hp : s.points ≠ none) (hτ : tension ≠ s.tension)
    (hα : alpha ≠ s.alpha) (hb : s.closed ≠ closed) (hl : 2 ≤ l.length) :
    setPoints invalidateCacheBase s none = none ∧
    (∀ l' : List Vec, l'.length < 2 →
      setPoints invalidateCacheBase s (some l') = none) ∧
    (∃ s', setPoints invalidateCacheBase s (some l) = some s' ∧
      s'.points = some l ∧ s'.cache = emptyCache ∧ s'.fired = s.fired + 1) ∧
    ((setTension invalidateCacheBase s tension).tension = tension ∧
      (setTension invalidateCacheBase s tension).cache = emptyCache ∧
      (setTension invalidateCacheBase s tension).fired = s.fired + 1) ∧
    ((setAlpha invalidateCacheBase s alpha).alpha = alpha ∧
      (setAlpha invalidateCacheBase s alpha).cache = emptyCache ∧
      (setAlpha invalidateCacheBase s alpha).fired = s.fired + 1) ∧
    ((setClosed invalidateCacheBase s closed).closed = closed ∧
      (setClosed invalidateCacheBase s closed).cache = emptyCache ∧
      (setClosed invalidateCacheBase s closed).fired = s.fired + 1) ∧
    ((setTension invalidateCacheNumerical s tension).cache = emptyCache ∧
      (setTension invalidateCacheNumerical s tension).fired = s.fired + 1) := by
  have hbase := invalidateCacheBase_some s hp
  have hnum := invalidateCacheNumerical_some s hp
  refine ⟨rfl, ?_, ?_, ?_, ?_, ?_, ?_⟩
  · intro l' hl'
    simp only [setPoints]
    rw [if_pos hl']
  · refine ⟨invalidateCacheBase { s with points := some l }, ?_, ?_, ?_, ?_⟩
    · simp only [setPoints]
      rw [if_neg (by omega : ¬ l.length < 2)]
    · rw [invalidateCacheBase_some { s with points := some l } (by simp)]
    · rw [invalidateCacheBase_some { s with points := some l } (by simp)]
    · rw [invalidateCacheBase_some { s with points := some l } (by simp)]
  · unfold setTension
    rw [if_pos hτ, hbase]
    exact ⟨rfl, rfl, rfl⟩
  · unfold setAlpha
    rw [if_pos hα, hbase]
    exact ⟨rfl, rfl, rfl⟩
  · unfold setClosed
    rw [if_pos hb, hbase]
    exact ⟨rfl, rfl, rfl⟩
  · unfold setTension
    rw [if_pos hτ, hnum]
    exact ⟨rfl, rfl⟩

theorem setters_invalidate_witness :
    ((⟨some [[0, 0], [1, 0]], 0.5, 0, false, emptyCache, 0⟩ : MapperState).points ≠
      none) ∧
    setPoints invalidateCacheBase
      (⟨some [[0, 0], [1, 0]], 0.5, 0, false, emptyCache, 0⟩ : MapperState) none =
      none ∧
    ((setTension invalidateCacheBase
        (⟨some [[0, 0], [1, 0]], 0.5, 0, false, emptyCache, 0⟩ : MapperState)
        0.7).tension = 0.7 ∧
      (setTension invalidateCacheBase
        (⟨some [[0, 0], [1, 0]], 0.5, 0, false, emptyCache, 0⟩ : MapperState)
        0.7).cache = emptyCache ∧
      (setTension invalidateCacheBase
        (⟨some [[0, 0], [1, 0]], 0.5, 0, false, emptyCache, 0⟩ : MapperState)
        0.7).fired =
        (⟨some [[0, 0], [1, 0]], 0.5, 0, false, emptyCache, 0⟩ : MapperState).fired
          + 1) := by
  obtain ⟨h1, _, _, h4, _⟩ := setters_invalidate
    (⟨some [[0, 0], [1, 0]], 0.5, 0, false, emptyCache, 0⟩ : MapperState)
    [[0, 0], [1, 0]] 0.7 1 true (by simp) (by norm_num) (by norm_num) (by simp)
    (by norm_num)
  exact ⟨by simp, h1, h4⟩

end CurveInterp

end
